import Mathlib

/-!
Verification of the perfetto-to-llm trace viewer core.

This development gives a shallow embedding, in Lean 4, of the trace data
model and the algorithms of the repository:

* src/llm-exporter.js, class TraceParser: parseFile format sniffing,
  parseJSON (Chrome trace events), parseSystrace (marker-based text lines),
  parseProtobuf (demo-trace fallback), calculateSliceDepths (greedy
  interval colouring), normalizeTimestamps, getColorIndex;
* src/trace-viewer.js, class TraceViewer: findVisibleSlices (viewport
  range cull), findFirstSliceStartingAfter (binary search),
  getSliceAtPosition (point hit test), getSelectedSlices and
  getSelectedSlicesForExport (selection reads).

JavaScript numbers are modelled as exact rationals (ℚ); array indices in
the binary searches are modelled as integers, exactly as the source
manipulates them (right can become -1).  Fallible operations return
Except.  Object mutation is modelled by explicit state passing: the
JavaScript pipeline mutates slice objects that are shared between the
global slice array and the per-track arrays, so the dataset is modelled
through its tracks (the global array holds the same slices).
-/

/-- A slice record, as constructed by TraceParser.parseJSON /
parseSystrace (src/llm-exporter.js:555-566, 660-671): id, trackId, name,
category, startTime, duration, endTime, args, depth, color. -/
structure Slice where
  id : Nat
  trackId : Nat
  name : String
  category : String
  startTime : ℚ
  duration : ℚ
  endTime : ℚ
  args : List (String × String)
  depth : Nat
  color : Nat
deriving Repr, DecidableEq

/-- A track record, as constructed by the parsers
(src/llm-exporter.js:540-547, 623-630): id, name, pid, tid, processName,
slices.  maxDepth is set later by calculateSliceDepths; the parsers leave
it unset, which we model as 0 (the viewer reads it as `track.maxDepth || 1`,
so 0 and undefined behave alike). -/
structure Track where
  id : Nat
  name : String
  pid : Nat
  tid : Nat
  processName : String
  slices : List Slice
  maxDepth : Nat := 0
deriving Repr, DecidableEq

/-- The global time range kept by TraceParser (src/llm-exporter.js:435).
The source initialises start to Infinity and end to -Infinity and folds
min / max over event timestamps; we represent the not-yet-seen sentinel
as none (so `none` for start plays Infinity, `none` for endT plays
-Infinity). The field named `end` in the source is called `endT` here
(`end` is a Lean keyword). -/
structure TimeRange where
  start : Option ℚ
  endT : Option ℚ
deriving Repr, DecidableEq

/-- A parsed dataset: the tracks, the time range and the free-form
metadata mapping (src/llm-exporter.js:584-589).  The global
`this.slices` array of the source holds exactly the slices of the
tracks (each slice object is pushed to both), so the dataset is carried
through its tracks. -/
structure Dataset where
  tracks : List Track
  timeRange : TimeRange
  metadata : List (String × List (String × String))
deriving Repr, DecidableEq

/-! ### Colour hashing (src/llm-exporter.js:903-910)

getColorIndex folds `hash = ((hash << 5) - hash) + charCode; hash = hash & hash`
over the characters of the string; `hash & hash` coerces the JavaScript
number to a signed 32-bit integer. -/

/-- Wrap an integer into the signed 32-bit range, the effect of the
bitwise `hash & hash` step. -/
def toInt32 (n : Int) : Int :=
  ((n + 2 ^ 31) % 2 ^ 32) - 2 ^ 31

/-- One step of the getColorIndex hash loop. -/
def colorHashStep (hash : Int) (c : Char) : Int :=
  toInt32 (toInt32 (hash * 32 - hash) + Int.ofNat c.toNat)

/-- TraceParser.getColorIndex (src/llm-exporter.js:903-910): stable hash
of the string, reduced modulo 8. -/
def getColorIndex (str : String) : Nat :=
  ((str.data.foldl colorHashStep 0).natAbs) % 8

/-! ### Depth assignment (src/llm-exporter.js:832-883)

calculateSliceDepths sorts each track ascending by startTime with ties
broken by descending duration, then walks the sorted list keeping a
working set of active slices: slices whose endTime is at most the
current startTime are evicted, and the current slice receives the
smallest depth not used by a remaining active slice. -/

/-- The sort relation of the comparator at src/llm-exporter.js:840-846:
a comes before b when a.startTime < b.startTime, or the start times are
equal and a.duration >= b.duration. -/
def sliceOrder (a b : Slice) : Prop :=
  a.startTime < b.startTime ∨ (a.startTime = b.startTime ∧ b.duration ≤ a.duration)

instance : DecidableRel sliceOrder := fun a b => by
  unfold sliceOrder
  infer_instance

instance : IsTotal Slice sliceOrder where
  total a b := by
    unfold sliceOrder
    rcases lt_trichotomy a.startTime b.startTime with h | h | h
    · exact Or.inl (Or.inl h)
    · rcases le_total a.duration b.duration with hd | hd
      · exact Or.inr (Or.inr ⟨h.symm, hd⟩)
      · exact Or.inl (Or.inr ⟨h, hd⟩)
    · exact Or.inr (Or.inl h)

instance : IsTrans Slice sliceOrder where
  trans a b c hab hbc := by
    unfold sliceOrder at *
    rcases hab with h1 | ⟨e1, d1⟩
    · rcases hbc with h2 | ⟨e2, d2⟩
      · exact Or.inl (h1.trans h2)
      · exact Or.inl (e2 ▸ h1)
    · rcases hbc with h2 | ⟨e2, d2⟩
      · exact Or.inl (e1 ▸ h2)
      · exact Or.inr ⟨e1.trans e2, d2.trans d1⟩

/-- The in-place `track.slices.sort(comparator)` call
(src/llm-exporter.js:840-846), modelled as a comparison sort by
`sliceOrder`. -/
def sortSlices (l : List Slice) : List Slice :=
  List.insertionSort sliceOrder l

/-- The `while (usedDepths.has(depth)) depth++` loop of
src/llm-exporter.js:868-871: the smallest natural number at least d that
is not in used. -/
def nextFreeDepth (used : List Nat) (d : Nat) : Nat :=
  if used.contains d then nextFreeDepth used (d + 1) else d
termination_by (used.foldr max 0) + 1 - d
decreasing_by
  rename_i h
  have hle : d ≤ used.foldr max 0 := by
    have hmem : d ∈ used := by simpa using h
    clear h
    induction used with
    | nil => simp at hmem
    | cons a t ih =>
      rcases List.mem_cons.mp hmem with rfl | hm
      · simp
      · exact le_trans (ih hm) (by simp)
  omega

/-- The body of the depth-assignment loop (src/llm-exporter.js:849-878),
processing the sorted slices in order.  active is the working set of
still-running slices; for each slice, finished active slices
(endTime <= slice.startTime) are removed, the smallest unused depth is
assigned, and the slice joins the working set. -/
def assignDepths (active : List Slice) : List Slice → List Slice
  | [] => []
  | s :: rest =>
    let active' := active.filter (fun a => !(decide (a.endTime ≤ s.startTime)))
    let usedDepths := active'.map (·.depth)
    let s' := { s with depth := nextFreeDepth usedDepths 0 }
    s' :: assignDepths (active' ++ [s']) rest

/-- TraceParser.calculateSliceDepths on a single track
(src/llm-exporter.js:833-882): empty tracks get maxDepth 1; otherwise the
slices are sorted, depths are assigned greedily, and
`track.maxDepth = max(1, max over slices of depth + 1)`. -/
def calculateSliceDepthsTrack (t : Track) : Track :=
  if t.slices.isEmpty then { t with maxDepth := 1 }
  else
    let out := assignDepths [] (sortSlices t.slices)
    { t with
        slices := out
        maxDepth := max 1 (out.foldl (fun m s => max m (s.depth + 1)) 0) }

/-- TraceParser.calculateSliceDepths (src/llm-exporter.js:832-883),
applied to every track of the dataset. -/
def calculateSliceDepths (tracks : List Track) : List Track :=
  tracks.map calculateSliceDepthsTrack

/-! ### Timestamp normalisation (src/llm-exporter.js:888-898) -/

/-- The per-slice mutation of normalizeTimestamps: both startTime and
endTime are shifted by -offset; no other field is touched. -/
def shiftSlice (offset : ℚ) (s : Slice) : Slice :=
  { s with startTime := s.startTime - offset, endTime := s.endTime - offset }

/-- TraceParser.normalizeTimestamps (src/llm-exporter.js:888-898):
offset := timeRange.start; every slice is shifted by -offset,
timeRange.end is shifted by -offset, and timeRange.start is set to 0.
The source reads the offset from this.timeRange.start after at least one
event has been seen; the Infinity sentinel (none) defaults to 0 here. -/
def normalizeTimestamps (d : Dataset) : Dataset :=
  let offset := d.timeRange.start.getD 0
  { d with
      tracks := d.tracks.map (fun t => { t with slices := t.slices.map (shiftSlice offset) })
      timeRange := { start := some 0, endT := d.timeRange.endT.map (· - offset) } }

/-! ### Chrome JSON trace parsing (src/llm-exporter.js:509-590)

parseJSON receives the decoded JSON event list (Chrome trace format).
An event carries a phase string and optional fields; absent fields are
modelled as none (the source reads them with `||` defaults). -/

/-- One Chrome trace event, the element shape consumed by
TraceParser.parseJSON. -/
structure TraceEvent where
  ph : String
  pid : Option Nat
  tid : Option Nat
  ts : Option ℚ
  dur : Option ℚ
  name : Option String
  cat : Option String
  tname : Option String
  pname : Option String
  args : List (String × String)
deriving Repr, DecidableEq

/-- Overwrite-or-append assignment `metadata[name] = args`
(src/llm-exporter.js:527). -/
def setMeta (m : List (String × List (String × String))) (k : String)
    (v : List (String × String)) : List (String × List (String × String)) :=
  if m.any (fun p => p.1 == k) then
    m.map (fun p => if p.1 == k then (k, v) else p)
  else m ++ [(k, v)]

/-- The mutable state threaded through the parseJSON event loop: the
track map in insertion order keyed by (pid, tid), the number of slices
created so far (slice ids are `this.slices.length`), the metadata and
the running time range. -/
structure JsonState where
  trackEntries : List ((Nat × Nat) × Track)
  sliceCount : Nat
  metadata : List (String × List (String × String))
  timeRange : TimeRange
deriving Repr

/-- Append a slice to the track with the given key in the track map. -/
def pushSliceToTrack (entries : List ((Nat × Nat) × Track)) (key : Nat × Nat)
    (s : Slice) : List ((Nat × Nat) × Track) :=
  entries.map (fun e => if e.1 == key then (e.1, { e.2 with slices := e.2.slices ++ [s] }) else e)

/-- Fold min into the Infinity-seeded running minimum. -/
def minOpt (cur : Option ℚ) (x : ℚ) : Option ℚ :=
  some (match cur with | none => x | some v => min v x)

/-- Fold max into the -Infinity-seeded running maximum. -/
def maxOpt (cur : Option ℚ) (x : ℚ) : Option ℚ :=
  some (match cur with | none => x | some v => max v x)

/-- One iteration of the parseJSON event loop
(src/llm-exporter.js:524-574): metadata events update the metadata map;
unsupported phases are skipped; otherwise the (pid, tid) track is
created on first reference, and X / B events produce a slice (duration
dur for X, zero for B) and widen the time range. -/
def parseJSONStep (st : JsonState) (event : TraceEvent) : JsonState :=
  if event.ph == "M" then
    { st with metadata := setMeta st.metadata (event.name.getD "Unknown") event.args }
  else if !(["X", "B", "E", "I", "i", "C"].contains event.ph) then st
  else
    let pid := event.pid.getD 0
    let tid := event.tid.getD 0
    let key := (pid, tid)
    let entries :=
      if st.trackEntries.any (fun e => e.1 == key) then st.trackEntries
      else
        st.trackEntries ++ [(key,
          { id := st.trackEntries.length
            name := event.tname.getD ("Thread " ++ toString tid)
            pid := pid
            tid := tid
            processName := event.pname.getD ("Process " ++ toString pid)
            slices := [] })]
    let trackId := ((entries.find? (fun e => e.1 == key)).map (fun e => e.2.id)).getD 0
    let ts := event.ts.getD 0
    let dur := event.dur.getD 0
    if event.ph == "X" || event.ph == "B" then
      let slice : Slice :=
        { id := st.sliceCount
          trackId := trackId
          name := event.name.getD "Unknown"
          category := event.cat.getD ""
          startTime := ts
          duration := if event.ph == "X" then dur else 0
          endTime := if event.ph == "X" then ts + dur else ts
          args := event.args
          depth := 0
          color := getColorIndex (event.cat.getD (event.name.getD "Unknown")) }
      { st with
          trackEntries := pushSliceToTrack entries key slice
          sliceCount := st.sliceCount + 1
          timeRange :=
            { start := minOpt st.timeRange.start ts
              endT := maxOpt st.timeRange.endT (ts + dur) } }
    else { st with trackEntries := entries }

/-- TraceParser.parseJSON (src/llm-exporter.js:509-590) on the decoded
event list: run the event loop, collect the tracks, assign depths, then
normalise timestamps. -/
def parseJSON (events : List TraceEvent) : Dataset :=
  let st := events.foldl parseJSONStep
    { trackEntries := [], sliceCount := 0, metadata := [],
      timeRange := { start := none, endT := none } }
  normalizeTimestamps
    { tracks := calculateSliceDepths (st.trackEntries.map (·.2))
      timeRange := st.timeRange
      metadata := st.metadata }

/-! ### Systrace parsing (src/llm-exporter.js:595-691)

parseSystrace splits the text into lines and matches each against the
systrace regex; matching lines carry task name, tid, cpu, a timestamp in
seconds, an event type and a payload.  The payload of a
tracing_mark_write event is matched against the begin marker B|pid|name
and the end marker E|pid.  We model a line after this lexing step: a
line either fails the regex (noMatch) or carries the captured fields,
with the payload already classified. -/

/-- The payload captures of src/llm-exporter.js:609-610: a begin marker,
an end marker, or anything else (ignored; the counter regex at line 611
is never consulted). -/
inductive SysPayload where
  | beginMark (pid : Nat) (name : String)
  | endMark (pid : Nat)
  | otherMark (raw : String)
deriving Repr, DecidableEq

/-- One line of a systrace file after regex capture
(src/llm-exporter.js:608, 613-617). ts is the captured timestamp in
seconds. -/
inductive SysLine where
  | noMatch
  | evt (task : String) (tid : Nat) (cpu : Nat) (ts : ℚ) (eventType : String)
      (payload : SysPayload)
deriving Repr, DecidableEq

/-- An entry of the openSlices stack (src/llm-exporter.js:647-651). -/
structure OpenSlice where
  name : String
  startTime : ℚ
  trackId : Nat
deriving Repr, DecidableEq

/-- The mutable state of the parseSystrace line loop: the track map in
insertion order keyed by (task, tid), the open-slice stacks keyed by
(task, tid, marker pid), the number of slices created so far, and the
running time range. -/
structure SysState where
  trackEntries : List ((String × Nat) × Track)
  openSlices : List ((String × Nat × Nat) × List OpenSlice)
  sliceCount : Nat
  timeRange : TimeRange
deriving Repr

/-- Append an open slice to the stack with the given key (JavaScript
Array.push at src/llm-exporter.js:647). -/
def pushOpen (stks : List ((String × Nat × Nat) × List OpenSlice))
    (key : String × Nat × Nat) (o : OpenSlice) :
    List ((String × Nat × Nat) × List OpenSlice) :=
  if stks.any (fun e => e.1 == key) then
    stks.map (fun e => if e.1 == key then (e.1, e.2 ++ [o]) else e)
  else stks ++ [(key, [o])]

/-- Append a slice to the track with the given key in the systrace track
map. -/
def pushSliceToSysTrack (entries : List ((String × Nat) × Track))
    (key : String × Nat) (s : Slice) : List ((String × Nat) × Track) :=
  entries.map (fun e => if e.1 == key then (e.1, { e.2 with slices := e.2.slices ++ [s] }) else e)

/-- One iteration of the parseSystrace line loop
(src/llm-exporter.js:613-679): non-matching lines are skipped; the
(task, tid) track is created on first reference; a begin marker pushes an
open slice and widens timeRange.start; an end marker pops the most
recently opened entry of its stack (if any) and emits the completed
slice, widening timeRange.end; anything else only creates the track. -/
def parseSystraceStep (st : SysState) (line : SysLine) : SysState :=
  match line with
  | .noMatch => st
  | .evt task tid _cpu tsSec eventType payload =>
    let ts := tsSec * 1000000
    let key := (task, tid)
    let entries :=
      if st.trackEntries.any (fun e => e.1 == key) then st.trackEntries
      else
        st.trackEntries ++ [(key,
          { id := st.trackEntries.length
            name := task
            pid := tid
            tid := tid
            processName := task
            slices := [] })]
    let trackId := ((entries.find? (fun e => e.1 == key)).map (fun e => e.2.id)).getD 0
    if eventType == "tracing_mark_write" then
      match payload with
      | .beginMark mpid sliceName =>
        { st with
            trackEntries := entries
            openSlices := pushOpen st.openSlices (task, tid, mpid)
              { name := sliceName, startTime := ts, trackId := trackId }
            timeRange := { st.timeRange with start := minOpt st.timeRange.start ts } }
      | .endMark mpid =>
        let okey := (task, tid, mpid)
        let stack := ((st.openSlices.find? (fun e => e.1 == okey)).map (·.2)).getD []
        match stack.getLast? with
        | none => { st with trackEntries := entries }
        | some o =>
          let slice : Slice :=
            { id := st.sliceCount
              trackId := o.trackId
              name := o.name
              category := "systrace"
              startTime := o.startTime
              duration := ts - o.startTime
              endTime := ts
              args := []
              depth := 0
              color := getColorIndex o.name }
          { st with
              trackEntries := pushSliceToSysTrack entries key slice
              openSlices := st.openSlices.map
                (fun e => if e.1 == okey then (e.1, e.2.dropLast) else e)
              sliceCount := st.sliceCount + 1
              timeRange := { st.timeRange with endT := maxOpt st.timeRange.endT ts } }
      | .otherMark _ => { st with trackEntries := entries }
    else { st with trackEntries := entries }

/-- TraceParser.parseSystrace (src/llm-exporter.js:595-691) on the lexed
line list: run the line loop, collect the tracks, assign depths, then
normalise timestamps. -/
def parseSystrace (lines : List SysLine) : Dataset :=
  let st := lines.foldl parseSystraceStep
    { trackEntries := [], openSlices := [], sliceCount := 0,
      timeRange := { start := none, endT := none } }
  normalizeTimestamps
    { tracks := calculateSliceDepths (st.trackEntries.map (·.2))
      timeRange := st.timeRange
      metadata := [] }

/-! ### Format sniffing and parseFile (src/llm-exporter.js:443-508, 697-708) -/

/-- TraceParser.findFirstNonWhitespace (src/llm-exporter.js:474-483):
first byte among the first 100 that is not space, tab, newline or
carriage return; 0 when only whitespace is seen. -/
def findFirstNonWhitespace (bytes : List Nat) : Nat :=
  go (bytes.take 100)
where
  go : List Nat → Nat
    | [] => 0
    | b :: rest =>
      if b != 32 && b != 9 && b != 10 && b != 13 then b else go rest

/-- Containment of a byte sequence, the `String.includes` checks of
src/llm-exporter.js:463. -/
def containsSeq (pat : List Nat) : List Nat → Bool
  | [] => pat.isEmpty
  | b :: rest => pat.isPrefixOf (b :: rest) || containsSeq pat rest

/-- The four outcomes of the format detection in parseFile. -/
inductive SniffedFormat where
  | gzip
  | json
  | systrace
  | protobuf
deriving Repr, DecidableEq

/-- The ASCII bytes of "TRACE:". -/
def traceMagic : List Nat := [84, 82, 65, 67, 69, 58]

/-- The ASCII bytes of "tracer:". -/
def tracerMagic : List Nat := [116, 114, 97, 99, 101, 114, 58]

/-- The format detection of TraceParser.parseFile
(src/llm-exporter.js:447-468): gzip magic bytes 0x1F 0x8B; JSON when the
first non-whitespace byte is 0x7B or 0x5B; systrace when the first 100
bytes start with # (35) or contain "TRACE:" or "tracer:"; protobuf
otherwise. -/
def sniffFormat (bytes : List Nat) : SniffedFormat :=
  match bytes with
  | b0 :: b1 :: _ =>
    if b0 == 31 && b1 == 139 then .gzip else sniffDecompressed bytes
  | _ => sniffDecompressed bytes
where
  sniffDecompressed (bs : List Nat) : SniffedFormat :=
    let fnw := findFirstNonWhitespace bs
    if fnw == 123 || fnw == 91 then .json
    else
      let textStart := bs.take 100
      if (match textStart with | 35 :: _ => true | _ => false)
          || containsSeq traceMagic textStart || containsSeq tracerMagic textStart then
        .systrace
      else .protobuf

/-- TraceParser.parseProtobuf (src/llm-exporter.js:697-708): it warns on
the console and returns this.createDemoTrace() — a dataset, never a
failure.  The demo trace content is produced with Math.random(), an
external entropy source, so it is abstracted as the demoTrace
parameter. -/
def parseProtobuf (demoTrace : Dataset) : Except String Dataset :=
  .ok demoTrace

/-- TraceParser.parseFile (src/llm-exporter.js:443-469).  The external
text-level decoders are parameters: decompress models the gzip
DecompressionStream, decodeJson models TextDecoder + JSON.parse +
traceEvents unwrapping (none models a JSON.parse exception, which the
source lets escape), decodeLines models TextDecoder + line split + regex
capture, and demoTrace is the random createDemoTrace result returned by
parseProtobuf. -/
def parseFile (bytes : List Nat) (decompress : List Nat → List Nat)
    (decodeJson : List Nat → Option (List TraceEvent))
    (decodeLines : List Nat → List SysLine) (demoTrace : Dataset) :
    Except String Dataset :=
  let bytes' := if sniffFormat bytes == .gzip then decompress bytes else bytes
  match sniffFormat bytes' with
  | .json =>
    match decodeJson bytes' with
    | some events => .ok (parseJSON events)
    | none => .error "JSON.parse failed"
  | .systrace => .ok (parseSystrace (decodeLines bytes'))
  | _ => parseProtobuf demoTrace

/-! ### The viewport query engine (src/trace-viewer.js)

Slice times and pixel coordinates are JavaScript numbers; both are
modelled as rationals.  The binary searches manipulate left / right /
mid as the source does, with right able to reach -1, so those indices
are integers. -/

instance : Inhabited Slice :=
  ⟨{ id := 0, trackId := 0, name := "", category := "", startTime := 0,
     duration := 0, endTime := 0, args := [], depth := 0, color := 0 }⟩

/-- Read slices[i].startTime; out-of-range reads never happen in the
reachable states of the searches below. -/
def startTimeAt (slices : List Slice) (i : Nat) : ℚ :=
  ((slices.get? i).map Slice.startTime).getD 0

/-- The binary-search loop of TraceViewer.findVisibleSlices
(src/trace-viewer.js:567-579): lastPossibleIdx starts at slices.length
and is lowered to every probe whose startTime exceeds viewEnd. -/
def findLastLoop (slices : List Slice) (viewEnd : ℚ) (left right acc : Int) : Int :=
  if left ≤ right then
    let mid := (left + right) / 2
    if startTimeAt slices mid.toNat > viewEnd then
      findLastLoop slices viewEnd left (mid - 1) mid
    else
      findLastLoop slices viewEnd (mid + 1) right acc
  else acc
termination_by (right + 1 - left).toNat
decreasing_by
  all_goals
    simp_wf
    omega

/-- TraceViewer.findVisibleSlices (src/trace-viewer.js:562-592): binary
search for the first slice starting after viewEnd, then scan indices
0 .. lastPossibleIdx - 1 keeping slices with endTime > viewStart. -/
def findVisibleSlices (slices : List Slice) (viewStart viewEnd : ℚ) : List Slice :=
  if slices.isEmpty then []
  else
    let lastPossibleIdx :=
      findLastLoop slices viewEnd 0 ((slices.length : Int) - 1) (slices.length : Int)
    (slices.take lastPossibleIdx.toNat).filter (fun s => decide (s.endTime > viewStart))

/-- The binary-search loop of TraceViewer.findFirstSliceStartingAfter
(src/trace-viewer.js:598-614): result starts at slices.length and is
lowered to every probe whose startTime is at least time. -/
def findFirstLoop (slices : List Slice) (time : ℚ) (left right acc : Int) : Int :=
  if left ≤ right then
    let mid := (left + right) / 2
    if startTimeAt slices mid.toNat ≥ time then
      findFirstLoop slices time left (mid - 1) mid
    else
      findFirstLoop slices time (mid + 1) right acc
  else acc
termination_by (right + 1 - left).toNat
decreasing_by
  all_goals
    simp_wf
    omega

/-- TraceViewer.findFirstSliceStartingAfter (src/trace-viewer.js:598-614):
index of the first slice with startTime >= time, or slices.length. -/
def findFirstSliceStartingAfter (slices : List Slice) (time : ℚ) : Int :=
  findFirstLoop slices time 0 ((slices.length : Int) - 1) (slices.length : Int)

/-- The viewer state used by the query engine: the loaded data, the
selection and hidden-track sets (identifier sets in the source), the
view window and the geometry fields set in the constructor
(src/trace-viewer.js:30-62, 40-41: sliceHeight 24, trackPadding 8). -/
structure Viewer where
  tracks : List Track
  slices : List Slice
  selectedSlices : List Nat
  hiddenTracks : List Nat
  viewStart : ℚ
  viewEnd : ℚ
  width : ℚ
  sliceHeight : ℚ := 24
  trackPadding : ℚ := 8

/-- TraceViewer.xToTime (src/trace-viewer.js:940-943). -/
def xToTime (v : Viewer) (x : ℚ) : ℚ :=
  v.viewStart + (x / v.width) * (v.viewEnd - v.viewStart)

/-- The per-track row height `(track.maxDepth || 1) * this.sliceHeight +
this.trackPadding * 2` (src/trace-viewer.js:955). -/
def trackHeightOf (v : Viewer) (t : Track) : ℚ :=
  ((if t.maxDepth = 0 then 1 else t.maxDepth : Nat) : ℚ) * v.sliceHeight + v.trackPadding * 2

/-- The backward scan of TraceViewer.getSliceAtPosition
(src/trace-viewer.js:967-997).  The counter n is one past the index
about to be examined, so the scan runs over indices n-1, n-2, ..., 0;
found and maxD carry the foundSlice / maxDepth variables (maxD starts at
-1). -/
def hitScan (slices : List Slice) (time y trackY pad h : ℚ) :
    Nat → Option Slice → Int → Option Slice
  | 0, found, _ => found
  | n + 1, found, maxD =>
    let slice := slices.getD n default
    if slice.endTime < time then
      if found.isSome ∧ time - slice.startTime > 10 * (slice.endTime - slice.startTime) then
        found
      else hitScan slices time y trackY pad h n found maxD
    else
      if time ≥ slice.startTime ∧ time ≤ slice.endTime then
        let sliceY := trackY + pad + (slice.depth : ℚ) * h
        if y ≥ sliceY ∧ y < sliceY + h - 2 then
          if (slice.depth : Int) > maxD then
            hitScan slices time y trackY pad h n (some slice) (slice.depth : Int)
          else hitScan slices time y trackY pad h n found maxD
        else hitScan slices time y trackY pad h n found maxD
      else hitScan slices time y trackY pad h n found maxD

/-- The track loop of TraceViewer.getSliceAtPosition
(src/trace-viewer.js:948-1006): hidden tracks are skipped without
advancing trackY; the first visible track whose row contains y is
searched with the backward scan and its result is returned. -/
def gspGo (v : Viewer) (x y : ℚ) : List Track → ℚ → Option Slice
  | [], _ => none
  | t :: rest, trackY =>
    if v.hiddenTracks.contains t.id then gspGo v x y rest trackY
    else
      let th := trackHeightOf v t
      if y ≥ trackY ∧ y < trackY + th then
        let time := xToTime v x
        let insertIdx := findFirstSliceStartingAfter t.slices time
        hitScan t.slices time y trackY v.trackPadding v.sliceHeight insertIdx.toNat none (-1)
      else gspGo v x y rest (trackY + th)

/-- TraceViewer.getSliceAtPosition (src/trace-viewer.js:948-1006). -/
def getSliceAtPosition (v : Viewer) (x y : ℚ) : Option Slice :=
  gspGo v x y v.tracks 0

/-- TraceViewer.getSelectedSlices (src/trace-viewer.js:1343-1345): all
selected slices, including those on hidden tracks. -/
def getSelectedSlices (v : Viewer) : List Slice :=
  v.slices.filter (fun s => v.selectedSlices.contains s.id)

/-- TraceViewer.getSelectedSlicesForExport (src/trace-viewer.js:1350-1354):
selected slices whose track is not hidden. -/
def getSelectedSlicesForExport (v : Viewer) : List Slice :=
  v.slices.filter (fun s => v.selectedSlices.contains s.id && !(v.hiddenTracks.contains s.trackId))

/-! ## Selection reads -/

/-- C9: for any viewer state, a slice of the loaded data whose id is
selected but whose track is hidden appears in getSelectedSlices and not
in getSelectedSlicesForExport; for a slice on a non-hidden track the two
lists agree on membership. -/
theorem selection_export_exclusion (v : Viewer) (s : Slice) (hs : s ∈ v.slices) :
    (s.id ∈ v.selectedSlices → s.trackId ∈ v.hiddenTracks →
      s ∈ getSelectedSlices v ∧ s ∉ getSelectedSlicesForExport v) ∧
    (s.trackId ∉ v.hiddenTracks →
      (s ∈ getSelectedSlices v ↔ s ∈ getSelectedSlicesForExport v)) := by
  unfold getSelectedSlices getSelectedSlicesForExport
  simp only [List.mem_filter]
  constructor
  · intro hsel hhid
    refine ⟨⟨hs, by simpa using hsel⟩, ?_⟩
    rintro ⟨-, h2⟩
    simp only [Bool.and_eq_true, Bool.not_eq_true'] at h2
    have : s.trackId ∉ v.hiddenTracks := by simpa using h2.2
    exact this hhid
  · intro hhid
    constructor
    · rintro ⟨h1, h2⟩
      refine ⟨h1, ?_⟩
      simp only [Bool.and_eq_true, Bool.not_eq_true']
      refine ⟨h2, ?_⟩
      simpa using hhid
    · rintro ⟨h1, h2⟩
      simp only [Bool.and_eq_true] at h2
      exact ⟨h1, h2.1⟩

/-- Example slice on track 0 used by the selection witness. -/
def selExampleSlice : Slice :=
  { id := 1, trackId := 0, name := "work", category := "demo", startTime := 0,
    duration := 5, endTime := 5, args := [], depth := 0, color := 0 }

/-- Example viewer with slice 1 selected and track 0 hidden. -/
def selExampleViewer : Viewer :=
  { tracks := [], slices := [selExampleSlice], selectedSlices := [1],
    hiddenTracks := [0], viewStart := 0, viewEnd := 100, width := 100 }

/-- Witness for the selection/export theorem at a concrete state. -/
theorem selection_export_exclusion_witness :
    selExampleSlice ∈ getSelectedSlices selExampleViewer ∧
      selExampleSlice ∉ getSelectedSlicesForExport selExampleViewer :=
  (selection_export_exclusion selExampleViewer selExampleSlice
    (by simp [selExampleViewer])).1
    (by simp [selExampleViewer, selExampleSlice]) (by simp [selExampleViewer, selExampleSlice])

/-! ## Timestamp normalisation frame effect -/

/-- The fields of a slice that normalizeTimestamps must not touch. -/
def sliceIdentity (s : Slice) :
    Nat × Nat × String × String × ℚ × List (String × String) × Nat × Nat :=
  (s.id, s.trackId, s.name, s.category, s.duration, s.args, s.depth, s.color)

/-- C10: normalizeTimestamps shifts every startTime and endTime by one
constant offset and rewrites the time range, and changes nothing else:
per track and in order, the identity fields (id, trackId, name,
category, duration, args, depth, color) are unchanged, so the relative
order of the slices of every track is unchanged as well, and the track
fields and metadata are untouched. -/
theorem normalize_frame_effect (d : Dataset) :
    ∃ offset : ℚ,
      (normalizeTimestamps d).tracks.map (fun t => t.slices.map sliceIdentity)
        = d.tracks.map (fun t => t.slices.map sliceIdentity) ∧
      (normalizeTimestamps d).tracks.map (fun t => t.slices.map (·.startTime))
        = d.tracks.map (fun t => t.slices.map (fun s => s.startTime - offset)) ∧
      (normalizeTimestamps d).tracks.map (fun t => t.slices.map (·.endTime))
        = d.tracks.map (fun t => t.slices.map (fun s => s.endTime - offset)) ∧
      (normalizeTimestamps d).tracks.map
          (fun t => (t.id, t.name, t.pid, t.tid, t.processName, t.maxDepth))
        = d.tracks.map (fun t => (t.id, t.name, t.pid, t.tid, t.processName, t.maxDepth)) ∧
      (normalizeTimestamps d).metadata = d.metadata := by
  refine ⟨d.timeRange.start.getD 0, ?_, ?_, ?_, ?_, ?_⟩ <;>
    simp [normalizeTimestamps, shiftSlice, sliceIdentity, List.map_map, Function.comp]

/-! ## Depth assignment: supporting lemmas -/

/-- Every member of a list of naturals is bounded by the foldr max. -/
lemma mem_le_foldr_max {l : List Nat} {x : Nat} (h : x ∈ l) : x ≤ l.foldr max 0 := by
  induction l with
  | nil => simp at h
  | cons a t ih =>
    rcases List.mem_cons.mp h with rfl | hm
    · simp
    · exact le_trans (ih hm) (by simp)

/-- Bool contains on lists of naturals agrees with membership. -/
lemma contains_eq_mem (l : List Nat) (d : Nat) : l.contains d = true ↔ d ∈ l := by
  simp

/-- Fuel-indexed form of the key property of the while loop at
src/llm-exporter.js:868-871: its result is not a used depth. -/
lemma nextFreeDepth_aux : ∀ (k : Nat) (used : List Nat) (d : Nat),
    used.foldr max 0 + 1 - d ≤ k → nextFreeDepth used d ∉ used := by
  intro k
  induction k with
  | zero =>
    intro used d h
    rw [nextFreeDepth.eq_def]
    have hc : used.contains d = false := by
      by_contra hcc
      simp only [Bool.not_eq_false] at hcc
      have := mem_le_foldr_max ((contains_eq_mem used d).mp hcc)
      omega
    rw [if_neg (by intro hcc; rw [hcc] at hc; simp at hc)]
    intro hm
    have := (contains_eq_mem used d).mpr hm
    rw [hc] at this
    simp at this
  | succ n ih =>
    intro used d h
    rw [nextFreeDepth.eq_def]
    by_cases hc : used.contains d = true
    · rw [if_pos hc]
      apply ih
      have := mem_le_foldr_max ((contains_eq_mem used d).mp hc)
      omega
    · simp only [Bool.not_eq_true] at hc
      rw [if_neg (by intro hcc; rw [hcc] at hc; simp at hc)]
      intro hm
      have := (contains_eq_mem used d).mpr hm
      rw [hc] at this
      simp at this

/-- The depth handed to the current slice is used by no remaining active
slice. -/
lemma nextFreeDepth_notin (used : List Nat) (d : Nat) : nextFreeDepth used d ∉ used :=
  nextFreeDepth_aux (used.foldr max 0 + 1 - d) used d le_rfl

/-- The active set after the eviction pass of one loop iteration
(abbreviates the filter inside assignDepths). -/
def stepActive (A : List Slice) (s : Slice) : List Slice :=
  A.filter (fun a => !(decide (a.endTime ≤ s.startTime)))

/-- The slice emitted by one loop iteration (abbreviates the depth
update inside assignDepths). -/
def stepSlice (A : List Slice) (s : Slice) : Slice :=
  { s with depth := nextFreeDepth ((stepActive A s).map (·.depth)) 0 }

/-- Unfolding equation of the loop in terms of the abbreviations. -/
lemma assignDepths_cons (A : List Slice) (s : Slice) (rest : List Slice) :
    assignDepths A (s :: rest) =
      stepSlice A s :: assignDepths (stepActive A s ++ [stepSlice A s]) rest := rfl

/-- The time fields of a slice, which depth assignment never changes. -/
def sliceTimes (s : Slice) : ℚ × ℚ × ℚ :=
  (s.startTime, s.duration, s.endTime)

/-- Depth assignment only rewrites depth: the time fields, in order, are
those of the input. -/
lemma assignDepths_map_times : ∀ (l A : List Slice),
    (assignDepths A l).map sliceTimes = l.map sliceTimes := by
  intro l
  induction l with
  | nil => intro A; rfl
  | cons s rest ih =>
    intro A
    rw [assignDepths_cons, List.map_cons, List.map_cons, ih]
    rfl

/-- Every output of the depth-assignment loop takes its start time from
an input slice. -/
lemma assignDepths_mem_start : ∀ (l A : List Slice) (b : Slice),
    b ∈ assignDepths A l → ∃ x ∈ l, b.startTime = x.startTime := by
  intro l
  induction l with
  | nil => intro A b h; simp [assignDepths] at h
  | cons s rest ih =>
    intro A b h
    rw [assignDepths_cons] at h
    rcases List.mem_cons.mp h with rfl | h
    · exact ⟨s, List.mem_cons_self .., rfl⟩
    · obtain ⟨x, hx, he⟩ := ih _ b h
      exact ⟨x, List.mem_cons_of_mem _ hx, he⟩

/-- Ordering of start times, the part of the sort relation that the
overlap argument needs. -/
def startLE (a b : Slice) : Prop :=
  a.startTime ≤ b.startTime

/-- Once p sits in the active set, every later output either gets a
depth different from p.depth or starts at or after p.endTime: p can only
leave the active set by expiring before the start of a later slice, and
while it stays, the chosen depth avoids p.depth. -/
lemma assignDepths_active_sep : ∀ (l A : List Slice) (p : Slice),
    p ∈ A → l.Pairwise startLE →
    ∀ b ∈ assignDepths A l, b.depth ≠ p.depth ∨ p.endTime ≤ b.startTime := by
  intro l
  induction l with
  | nil => intro A p _ _ b hb; simp [assignDepths] at hb
  | cons s rest ih =>
    intro A p hp hsort b hb
    have hpair := List.pairwise_cons.mp hsort
    rw [assignDepths_cons] at hb
    by_cases hkeep : p.endTime ≤ s.startTime
    · rcases List.mem_cons.mp hb with rfl | hb
      · exact Or.inr hkeep
      · obtain ⟨x, hx, he⟩ := assignDepths_mem_start _ _ b hb
        right
        calc p.endTime ≤ s.startTime := hkeep
          _ ≤ x.startTime := hpair.1 x hx
          _ = b.startTime := he.symm
    · have hpmem : p ∈ stepActive A s := by
        refine List.mem_filter.mpr ⟨hp, ?_⟩
        simp [hkeep]
      rcases List.mem_cons.mp hb with rfl | hb
      · left
        intro hdep
        have hnot := nextFreeDepth_notin ((stepActive A s).map (·.depth)) 0
        have hdd : (stepSlice A s).depth = nextFreeDepth ((stepActive A s).map (·.depth)) 0 := rfl
        rw [hdd] at hdep
        exact hnot (hdep ▸ List.mem_map_of_mem (·.depth) hpmem)
      · exact ih _ p (List.mem_append_left _ hpmem) hpair.2 b hb

/-- The pairwise guarantee of the depth-assignment loop over a
start-sorted input: two outputs with the same depth never overlap as
half-open intervals. -/
lemma assignDepths_pairwise : ∀ (l A : List Slice), l.Pairwise startLE →
    (assignDepths A l).Pairwise
      (fun a b => a.depth = b.depth →
        ¬(a.startTime < b.endTime ∧ b.startTime < a.endTime)) := by
  intro l
  induction l with
  | nil => intro A _; simp [assignDepths]
  | cons s rest ih =>
    intro A hsort
    have hpair := List.pairwise_cons.mp hsort
    rw [assignDepths_cons]
    refine List.Pairwise.cons ?_ (ih _ hpair.2)
    intro b hb hdep hover
    have hsep := assignDepths_active_sep rest _ (stepSlice A s)
      (List.mem_append_right _ (List.mem_singleton_self _)) hpair.2 b hb
    rcases hsep with hne | hle
    · exact hne hdep.symm
    · exact absurd hover.2 (not_lt.mpr hle)

/-- The sorted output of the comparator sort. -/
lemma sortSlices_pairwise (l : List Slice) : (sortSlices l).Pairwise sliceOrder :=
  List.sorted_insertionSort sliceOrder l

/-- The sort relation entails ordering of start times. -/
lemma sliceOrder_startLE {a b : Slice} (h : sliceOrder a b) : startLE a b := by
  rcases h with h | ⟨h, _⟩
  · exact le_of_lt h
  · exact le_of_eq h

/-- The sort relation read off the time fields alone. -/
def timesOrder (p q : ℚ × ℚ × ℚ) : Prop :=
  p.1 < q.1 ∨ (p.1 = q.1 ∧ q.2.1 ≤ p.2.1)

/-- sliceOrder is timesOrder after projecting the time fields. -/
lemma sliceOrder_iff_timesOrder (a b : Slice) :
    sliceOrder a b ↔ timesOrder (sliceTimes a) (sliceTimes b) := Iff.rfl

/-- Depth assignment preserves sortedness by the comparator: the time
fields are untouched and in the same order. -/
lemma assignDepths_pairwise_order (l A : List Slice) (h : l.Pairwise sliceOrder) :
    (assignDepths A l).Pairwise sliceOrder := by
  have h1 : (l.map sliceTimes).Pairwise timesOrder := by
    rw [List.pairwise_map]
    exact h.imp (fun hab => (sliceOrder_iff_timesOrder ..).mp hab)
  have h2 : ((assignDepths A l).map sliceTimes).Pairwise timesOrder := by
    rw [assignDepths_map_times]
    exact h1
  rw [List.pairwise_map] at h2
  exact h2.imp (fun hab => (sliceOrder_iff_timesOrder ..).mpr hab)

/-- Shifting both interval ends by a constant preserves the comparator
order (durations are untouched). -/
lemma shiftSlice_order (offset : ℚ) {a b : Slice} (h : sliceOrder a b) :
    sliceOrder (shiftSlice offset a) (shiftSlice offset b) := by
  rcases h with h | ⟨h, hd⟩
  · exact Or.inl (by simpa [shiftSlice] using h)
  · exact Or.inr ⟨by simpa [shiftSlice] using h, by simpa [shiftSlice] using hd⟩

/-- Per-track form of the sort invariant after depth assignment. -/
lemma calcTrack_pairwise_order (t : Track) :
    (calculateSliceDepthsTrack t).slices.Pairwise sliceOrder := by
  unfold calculateSliceDepthsTrack
  by_cases he : t.slices.isEmpty
  · rw [if_pos he]
    rw [List.isEmpty_iff] at he
    simp [he]
  · rw [if_neg he]
    exact assignDepths_pairwise_order _ _ (sortSlices_pairwise t.slices)

/-- C2: after depth assignment runs on a track, any two slices of that
track that share a depth value have non-overlapping half-open intervals
[startTime, endTime). -/
theorem no_overlap_same_depth (t : Track) :
    (calculateSliceDepthsTrack t).slices.Pairwise
      (fun a b => a.depth = b.depth →
        ¬(a.startTime < b.endTime ∧ b.startTime < a.endTime)) := by
  unfold calculateSliceDepthsTrack
  by_cases he : t.slices.isEmpty
  · rw [if_pos he]
    rw [List.isEmpty_iff] at he
    simp [he]
  · rw [if_neg he]
    exact assignDepths_pairwise _ _ ((sortSlices_pairwise t.slices).imp sliceOrder_startLE)

/-- C7: after the construction pipeline (depth assignment, then
timestamp normalisation) completes, every adjacent pair (a, b) of every
track satisfies a.startTime < b.startTime, or equal start times with
a.duration >= b.duration. -/
theorem sort_invariant_after_pipeline (tracks : List Track) (tr : TimeRange)
    (md : List (String × List (String × String))) :
    ∀ t ∈ (normalizeTimestamps
        { tracks := calculateSliceDepths tracks, timeRange := tr, metadata := md }).tracks,
      t.slices.Chain' (fun a b =>
        a.startTime < b.startTime ∨
          (a.startTime = b.startTime ∧ b.duration ≤ a.duration)) := by
  intro t ht
  simp only [normalizeTimestamps, calculateSliceDepths, List.map_map, List.mem_map,
    Function.comp] at ht
  obtain ⟨t0, _, rfl⟩ := ht
  have h1 : (calculateSliceDepthsTrack t0).slices.Pairwise sliceOrder :=
    calcTrack_pairwise_order t0
  have h2 : ((calculateSliceDepthsTrack t0).slices.map
      (shiftSlice (tr.start.getD 0))).Pairwise sliceOrder := by
    rw [List.pairwise_map]
    exact h1.imp (shiftSlice_order _)
  exact h2.chain'

/-- Input slices for the sort-invariant witness. -/
def c7SliceA : Slice :=
  { id := 0, trackId := 0, name := "a", category := "", startTime := 1, duration := 2,
    endTime := 3, args := [], depth := 0, color := 0 }

/-- Input track for the sort-invariant witness. -/
def c7Track : Track :=
  { id := 0, name := "t", pid := 0, tid := 0, processName := "p", slices := [c7SliceA] }

/-- Witness: the pipeline output of a one-slice track satisfies the
adjacent-pair sort invariant. -/
theorem sort_invariant_after_pipeline_witness :
    ({ c7Track with slices := [c7SliceA], maxDepth := 1 } : Track).slices.Chain' (fun a b =>
        a.startTime < b.startTime ∨
          (a.startTime = b.startTime ∧ b.duration ≤ a.duration)) := by
  refine sort_invariant_after_pipeline [c7Track] { start := some 0, endT := some 3 } [] _ ?_
  simp [normalizeTimestamps, calculateSliceDepths, calculateSliceDepthsTrack, sortSlices,
    assignDepths, nextFreeDepth, shiftSlice, stepActive, stepSlice, c7Track, c7SliceA]

/-! ## The range cull: binary search correctness -/

/-- startTimeAt agrees with indexing when in range. -/
lemma startTimeAt_eq (slices : List Slice) (i : Nat) (h : i < slices.length) :
    startTimeAt slices i = (slices[i]).startTime := by
  simp [startTimeAt, List.get?_eq_getElem?, List.getElem?_eq_getElem h]

/-- Index-monotone form of a start-sorted slice list. -/
lemma pairwise_startLE_index {l : List Slice} (hp : l.Pairwise startLE) :
    ∀ i j : Nat, i ≤ j → j < l.length → startTimeAt l i ≤ startTimeAt l j := by
  intro i j hij hj
  rcases eq_or_lt_of_le hij with rfl | hlt
  · exact le_rfl
  · rw [startTimeAt_eq l i (lt_trans hlt hj), startTimeAt_eq l j hj]
    exact (List.pairwise_iff_getElem.mp hp) i j (lt_trans hlt hj) hj hlt

/-- A member of a take-prefix sits at an index below the cut. -/
lemma mem_take_getElem {l : List Slice} {n : Nat} {x : Slice} (h : x ∈ l.take n) :
    ∃ i, ∃ hi : i < l.length, i < n ∧ l[i] = x := by
  obtain ⟨j, hj, he⟩ := List.mem_iff_getElem.mp h
  rw [List.length_take] at hj
  have hj1 : j < n := lt_of_lt_of_le hj (min_le_left ..)
  have hj2 : j < l.length := lt_of_lt_of_le hj (min_le_right ..)
  exact ⟨j, hj2, hj1, by rw [← List.getElem_take l]; exact he⟩

/-- A member of a drop-suffix sits at an index at or above the cut. -/
lemma mem_drop_getElem {l : List Slice} {n : Nat} {x : Slice} (h : x ∈ l.drop n) :
    ∃ i, ∃ hi : i < l.length, n ≤ i ∧ l[i] = x := by
  obtain ⟨j, hj, he⟩ := List.mem_iff_getElem.mp h
  rw [List.length_drop] at hj
  have hj2 : n + j < l.length := by omega
  refine ⟨n + j, hj2, by omega, ?_⟩
  rw [← List.getElem_drop l]
  exact he

/-- Correctness of the binary-search loop of findVisibleSlices: under
the invariants of the loop (acc is one past right, the indices below
left and at least L are known to start at or before viewEnd, the indices
at or past acc are known to start after viewEnd), the result splits the
array at the first slice past viewEnd, within the searched band. -/
lemma findLastLoop_spec (slices : List Slice) (we : ℚ) (L : Int) (hL : 0 ≤ L)
    (hsorted : ∀ i j : Nat, i ≤ j → j < slices.length → startTimeAt slices i ≤ startTimeAt slices j) :
    ∀ (fuel : Nat) (left right acc : Int),
      (right + 1 - left).toNat ≤ fuel →
      L ≤ left →
      left ≤ acc →
      acc = right + 1 →
      right ≤ (slices.length : Int) - 1 →
      (∀ i : Nat, L ≤ (i : Int) → (i : Int) < left → i < slices.length →
        startTimeAt slices i ≤ we) →
      (∀ i : Nat, acc ≤ (i : Int) → i < slices.length → we < startTimeAt slices i) →
      L ≤ findLastLoop slices we left right acc ∧
      findLastLoop slices we left right acc ≤ (slices.length : Int) ∧
      (∀ i : Nat, L ≤ (i : Int) → (i : Int) < findLastLoop slices we left right acc →
        i < slices.length → startTimeAt slices i ≤ we) ∧
      (∀ i : Nat, findLastLoop slices we left right acc ≤ (i : Int) → i < slices.length →
        we < startTimeAt slices i) := by
  intro fuel
  induction fuel with
  | zero =>
    intro left right acc hfuel hLl hla hacc hrb h1 h2
    rw [findLastLoop.eq_def, if_neg (by omega)]
    refine ⟨by omega, by omega, ?_, h2⟩
    intro i hi1 hi2 hi3
    exact h1 i hi1 (by omega) hi3
  | succ n ih =>
    intro left right acc hfuel hLl hla hacc hrb h1 h2
    by_cases hlr : left ≤ right
    · rw [findLastLoop.eq_def, if_pos hlr]
      have hmid1 : left ≤ (left + right) / 2 := by omega
      have hmid2 : (left + right) / 2 ≤ right := by omega
      have hmidc : (((left + right) / 2).toNat : Int) = (left + right) / 2 := by omega
      have hmidlen : ((left + right) / 2).toNat < slices.length := by omega
      by_cases hcond : startTimeAt slices ((left + right) / 2).toNat > we
      · rw [if_pos hcond]
        apply ih
        · omega
        · omega
        · omega
        · omega
        · omega
        · exact h1
        · intro i hi1 hi2
          have hle : ((left + right) / 2).toNat ≤ i := by omega
          exact lt_of_lt_of_le hcond (hsorted _ i hle hi2)
      · rw [if_neg hcond]
        apply ih
        · omega
        · omega
        · omega
        · exact hacc
        · exact hrb
        · intro i hi1 hi2 hi3
          by_cases hil : (i : Int) < left
          · exact h1 i hi1 hil hi3
          · have hle : i ≤ ((left + right) / 2).toNat := by omega
            exact le_trans (hsorted i _ hle hmidlen) (not_lt.mp hcond)
        · exact h2
    · rw [findLastLoop.eq_def, if_neg hlr]
      refine ⟨by omega, by omega, ?_, h2⟩
      intro i hi1 hi2 hi3
      exact h1 i hi1 (by omega) hi3

/-- Core exactness of the range cull over a start-sorted list, shared
by the claim theorems below. -/
lemma findVisibleSlices_eq_filter (slices : List Slice) (hsorted : slices.Pairwise startLE)
    (windowStart windowEnd : ℚ) :
    findVisibleSlices slices windowStart windowEnd =
      slices.filter (fun s =>
        decide (s.endTime > windowStart) && decide (s.startTime ≤ windowEnd)) := by
  by_cases hempty : slices.isEmpty
  · rw [List.isEmpty_iff] at hempty
    simp [findVisibleSlices, hempty]
  · unfold findVisibleSlices
    rw [if_neg hempty]
    have hidx := pairwise_startLE_index hsorted
    obtain ⟨hr0, hrlen, hzone1, hzone2⟩ :=
      findLastLoop_spec slices windowEnd 0 le_rfl hidx
        ((slices.length : Int) - 1 + 1 - 0).toNat 0 ((slices.length : Int) - 1)
        (slices.length : Int) le_rfl (by omega) (by omega) (by omega) (by omega)
        (by intro i _ hi2 _; omega)
        (by intro i hi1 hi2; omega)
    set r := findLastLoop slices windowEnd 0 ((slices.length : Int) - 1) (slices.length : Int)
      with hrdef
    conv_rhs => rw [← List.take_append_drop r.toNat slices]
    rw [List.filter_append]
    have htake : (slices.take r.toNat).filter (fun s =>
        decide (s.endTime > windowStart) && decide (s.startTime ≤ windowEnd)) =
        (slices.take r.toNat).filter (fun s => decide (s.endTime > windowStart)) := by
      apply List.filter_congr
      intro x hx
      obtain ⟨i, hi, hin, he⟩ := mem_take_getElem hx
      have hle : x.startTime ≤ windowEnd := by
        have := hzone1 i (by omega) (by omega) hi
        rw [startTimeAt_eq slices i hi, he] at this
        exact this
      simp [hle]
    have hdrop : (slices.drop r.toNat).filter (fun s =>
        decide (s.endTime > windowStart) && decide (s.startTime ≤ windowEnd)) = [] := by
      rw [List.filter_eq_nil_iff]
      intro x hx
      obtain ⟨i, hi, hin, he⟩ := mem_drop_getElem hx
      have hgt : windowEnd < x.startTime := by
        have := hzone2 i (by omega) hi
        rw [startTimeAt_eq slices i hi, he] at this
        exact this
      simp [not_le.mpr hgt]
    rw [htake, hdrop, List.append_nil]

/-- C1: on a track whose slices are sorted ascending by startTime, the
range cull returns exactly the brute-force filter
endTime > windowStart and startTime <= windowEnd over all slices — as
the same list, so in particular the same set. -/
theorem cull_exact (slices : List Slice) (hsorted : slices.Pairwise startLE)
    (windowStart windowEnd : ℚ) :
    findVisibleSlices slices windowStart windowEnd =
      slices.filter (fun s =>
        decide (s.endTime > windowStart) && decide (s.startTime ≤ windowEnd)) :=
  findVisibleSlices_eq_filter slices hsorted windowStart windowEnd

/-- The spec scenario slices [0,3), [4,8), [12,20) for the cull witness. -/
def cullSlices : List Slice :=
  [{ id := 0, trackId := 0, name := "s0", category := "", startTime := 0, duration := 3,
     endTime := 3, args := [], depth := 0, color := 0 },
   { id := 1, trackId := 0, name := "s1", category := "", startTime := 4, duration := 4,
     endTime := 8, args := [], depth := 0, color := 0 },
   { id := 2, trackId := 0, name := "s2", category := "", startTime := 12, duration := 8,
     endTime := 20, args := [], depth := 0, color := 0 }]

/-- Witness: the cull over the scenario track and window [5, 15] equals
the brute-force filter (which keeps the last two slices). -/
theorem cull_exact_witness :
    findVisibleSlices cullSlices 5 15 =
      cullSlices.filter (fun s =>
        decide (s.endTime > 5) && decide (s.startTime ≤ 15)) := by
  apply cull_exact
  simp [cullSlices, startLE]
  norm_num

/-! ## The hit-test binary search -/

/-- Correctness of the binary-search loop of
findFirstSliceStartingAfter, under the loop invariants: the result
splits the array at the first slice starting at or after time. -/
lemma findFirstLoop_spec (slices : List Slice) (time : ℚ)
    (hsorted : ∀ i j : Nat, i ≤ j → j < slices.length → startTimeAt slices i ≤ startTimeAt slices j) :
    ∀ (fuel : Nat) (left right acc : Int),
      (right + 1 - left).toNat ≤ fuel →
      0 ≤ left →
      left ≤ acc →
      acc = right + 1 →
      right ≤ (slices.length : Int) - 1 →
      (∀ i : Nat, (i : Int) < left → i < slices.length → startTimeAt slices i < time) →
      (∀ i : Nat, acc ≤ (i : Int) → i < slices.length → time ≤ startTimeAt slices i) →
      0 ≤ findFirstLoop slices time left right acc ∧
      findFirstLoop slices time left right acc ≤ (slices.length : Int) ∧
      (∀ i : Nat, (i : Int) < findFirstLoop slices time left right acc →
        i < slices.length → startTimeAt slices i < time) ∧
      (∀ i : Nat, findFirstLoop slices time left right acc ≤ (i : Int) → i < slices.length →
        time ≤ startTimeAt slices i) := by
  intro fuel
  induction fuel with
  | zero =>
    intro left right acc hfuel hl0 hla hacc hrb h1 h2
    rw [findFirstLoop.eq_def, if_neg (by omega)]
    refine ⟨by omega, by omega, ?_, h2⟩
    intro i hi1 hi2
    exact h1 i (by omega) hi2
  | succ n ih =>
    intro left right acc hfuel hl0 hla hacc hrb h1 h2
    by_cases hlr : left ≤ right
    · rw [findFirstLoop.eq_def, if_pos hlr]
      have hmid1 : left ≤ (left + right) / 2 := by omega
      have hmid2 : (left + right) / 2 ≤ right := by omega
      have hmidc : (((left + right) / 2).toNat : Int) = (left + right) / 2 := by omega
      have hmidlen : ((left + right) / 2).toNat < slices.length := by omega
      by_cases hcond : startTimeAt slices ((left + right) / 2).toNat ≥ time
      · rw [if_pos hcond]
        apply ih
        · omega
        · omega
        · omega
        · omega
        · omega
        · exact h1
        · intro i hi1 hi2
          have hle : ((left + right) / 2).toNat ≤ i := by omega
          exact le_trans hcond (hsorted _ i hle hi2)
      · rw [if_neg hcond]
        apply ih
        · omega
        · omega
        · omega
        · exact hacc
        · exact hrb
        · intro i hi1 hi2
          by_cases hil : (i : Int) < left
          · exact h1 i hil hi2
          · have hle : i ≤ ((left + right) / 2).toNat := by omega
            exact lt_of_le_of_lt (hsorted i _ hle hmidlen) (not_le.mp hcond)
        · exact h2
    · rw [findFirstLoop.eq_def, if_neg hlr]
      refine ⟨by omega, by omega, ?_, h2⟩
      intro i hi1 hi2
      exact h1 i (by omega) hi2

/-- findFirstSliceStartingAfter on a start-sorted list: indices below
the result start strictly before time, indices at or past it start at or
after time, and the result lies in [0, length]. -/
lemma findFirstSliceStartingAfter_spec (slices : List Slice) (time : ℚ)
    (hsorted : slices.Pairwise startLE) :
    0 ≤ findFirstSliceStartingAfter slices time ∧
    findFirstSliceStartingAfter slices time ≤ (slices.length : Int) ∧
    (∀ i : Nat, (i : Int) < findFirstSliceStartingAfter slices time →
      i < slices.length → startTimeAt slices i < time) ∧
    (∀ i : Nat, findFirstSliceStartingAfter slices time ≤ (i : Int) → i < slices.length →
      time ≤ startTimeAt slices i) := by
  unfold findFirstSliceStartingAfter
  exact findFirstLoop_spec slices time (pairwise_startLE_index hsorted)
    ((slices.length : Int) - 1 + 1 - 0).toNat 0 ((slices.length : Int) - 1)
    (slices.length : Int) le_rfl (by omega) (by omega) (by omega) (by omega)
    (by intro i hi1 _; omega)
    (by intro i hi1 hi2; omega)

/-! ## The spec description of the range cull (two binary searches)

The spec describes findOverlapping as: compute
safeLowerBound = windowStart - track.maxItemDuration, binary-search for
the first slice with startTime >= safeLowerBound (lo), binary-search
from lo for the first slice with startTime > windowEnd (hi), then scan
only [lo, hi) keeping slices with endTime > windowStart, where
maxItemDuration is the maximum duration among the track slices.  The
following two definitions render that description so it can be compared
with the code; findVisibleSlices in src/trace-viewer.js:562-592 has no
such lower bound, no maxItemDuration field, and scans from index 0. -/

/-- The maximum duration among the slices (0 when empty), the
maxItemDuration track statistic named by the spec; no such field exists
in the source. -/
def trackMaxItemDuration (slices : List Slice) : ℚ :=
  slices.foldr (fun s m => max s.duration m) 0

/-- The range-cull algorithm exactly as the spec words it, built from
the same binary searches the source provides. -/
def specRangeCull (slices : List Slice) (windowStart windowEnd : ℚ) : List Slice :=
  let maxDur := trackMaxItemDuration slices
  let lo := findFirstSliceStartingAfter slices (windowStart - maxDur)
  let hi := findLastLoop slices windowEnd lo ((slices.length : Int) - 1) (slices.length : Int)
  ((slices.drop lo.toNat).take (hi - lo).toNat).filter
    (fun s => decide (s.endTime > windowStart))

/-- Durations are bounded by the foldr maximum. -/
lemma duration_le_maxItem {slices : List Slice} {x : Slice} (h : x ∈ slices) :
    x.duration ≤ trackMaxItemDuration slices := by
  induction slices with
  | nil => simp at h
  | cons a t ih =>
    rcases List.mem_cons.mp h with rfl | hm
    · exact le_max_left ..
    · exact le_trans (ih hm) (le_max_right ..)

/-- A member of the [lo, lo+m) band sits at an absolute index lo + j. -/
lemma mem_drop_take_getElem {l : List Slice} {n m : Nat} {x : Slice}
    (h : x ∈ (l.drop n).take m) :
    ∃ j, ∃ hj : n + j < l.length, j < m ∧ l[n + j] = x := by
  obtain ⟨i, hi, him, he⟩ := mem_take_getElem h
  rw [List.length_drop] at hi
  have hj : n + i < l.length := by omega
  refine ⟨i, hj, him, ?_⟩
  rw [← he, List.getElem_drop l]

/-- C5 (amended): the spec algorithm — lower bound
windowStart - maxItemDuration, two binary searches, scan of [lo, hi) —
computes the same list as the source findVisibleSlices on every track
satisfying the data-model invariants (sorted by start time,
endTime = startTime + duration).  The source itself performs no
lower-bound search: it scans from index 0. -/
theorem spec_cull_agrees_on_invariant_tracks (slices : List Slice)
    (hsorted : slices.Pairwise startLE)
    (hdur : ∀ s ∈ slices, s.endTime = s.startTime + s.duration)
    (windowStart windowEnd : ℚ) :
    specRangeCull slices windowStart windowEnd =
      findVisibleSlices slices windowStart windowEnd := by
  rw [findVisibleSlices_eq_filter slices hsorted windowStart windowEnd]
  unfold specRangeCull
  obtain ⟨hlo0, hlolen, hloz1, hloz2⟩ :=
    findFirstSliceStartingAfter_spec slices (windowStart - trackMaxItemDuration slices) hsorted
  set lo := findFirstSliceStartingAfter slices (windowStart - trackMaxItemDuration slices)
    with hlodef
  obtain ⟨hhilo, hhilen, hhiz1, hhiz2⟩ :=
    findLastLoop_spec slices windowEnd lo hlo0 (pairwise_startLE_index hsorted)
      ((slices.length : Int) - 1 + 1 - lo).toNat lo ((slices.length : Int) - 1)
      (slices.length : Int) le_rfl le_rfl (by omega) (by omega) (by omega)
      (by intro i hi1 hi2 _; omega)
      (by intro i hi1 hi2; omega)
  set hi := findLastLoop slices windowEnd lo ((slices.length : Int) - 1) (slices.length : Int)
    with hhidef
  have hsplit1 : slices = slices.take lo.toNat ++ slices.drop lo.toNat :=
    (List.take_append_drop ..).symm
  have hsplit2 : slices.drop lo.toNat =
      (slices.drop lo.toNat).take (hi - lo).toNat ++ slices.drop hi.toNat := by
    have h1 : (slices.drop lo.toNat).drop (hi - lo).toNat = slices.drop hi.toNat := by
      rw [List.drop_drop]
      congr 1
      omega
    rw [← h1]
    exact (List.take_append_drop ..).symm
  conv_rhs => rw [hsplit1, List.filter_append, hsplit2, List.filter_append]
  have hpre : (slices.take lo.toNat).filter (fun s =>
      decide (s.endTime > windowStart) && decide (s.startTime ≤ windowEnd)) = [] := by
    rw [List.filter_eq_nil_iff]
    intro x hx
    obtain ⟨i, hi', hin, he⟩ := mem_take_getElem hx
    have hst : startTimeAt slices i < windowStart - trackMaxItemDuration slices :=
      hloz1 i (by omega) hi'
    rw [startTimeAt_eq slices i hi', he] at hst
    have hdx : x.endTime = x.startTime + x.duration := hdur x (he ▸ List.getElem_mem hi')
    have hdm : x.duration ≤ trackMaxItemDuration slices :=
      duration_le_maxItem (he ▸ List.getElem_mem hi')
    have : ¬(x.endTime > windowStart) := by
      rw [hdx]
      linarith
    simp [this]
  have hmid : ((slices.drop lo.toNat).take (hi - lo).toNat).filter (fun s =>
      decide (s.endTime > windowStart) && decide (s.startTime ≤ windowEnd)) =
      ((slices.drop lo.toNat).take (hi - lo).toNat).filter (fun s =>
        decide (s.endTime > windowStart)) := by
    apply List.filter_congr
    intro x hx
    obtain ⟨j, hj, hjm, he⟩ := mem_drop_take_getElem hx
    have hst : startTimeAt slices (lo.toNat + j) ≤ windowEnd := by
      refine hhiz1 (lo.toNat + j) (by omega) (by omega) hj
    rw [startTimeAt_eq slices _ hj, he] at hst
    simp [hst]
  have hsuf : (slices.drop hi.toNat).filter (fun s =>
      decide (s.endTime > windowStart) && decide (s.startTime ≤ windowEnd)) = [] := by
    rw [List.filter_eq_nil_iff]
    intro x hx
    obtain ⟨i, hi', hin, he⟩ := mem_drop_getElem hx
    have hst : windowEnd < startTimeAt slices i := hhiz2 i (by omega) hi'
    rw [startTimeAt_eq slices i hi', he] at hst
    simp [not_le.mpr hst]
  rw [hpre, hmid, hsuf, List.nil_append, List.append_nil]


/-- Witness for the spec-cull agreement theorem: on the scenario track
of the spec (both invariants hold) and the window [5, 15], the two
procedures agree. -/
theorem spec_cull_agrees_witness :
    specRangeCull cullSlices 5 15 = findVisibleSlices cullSlices 5 15 := by
  apply spec_cull_agrees_on_invariant_tracks
  · simp [cullSlices, startLE]
    norm_num
  · intro s hs
    simp only [cullSlices, List.mem_cons, List.not_mem_nil, or_false] at hs
    rcases hs with rfl | rfl | rfl <;> norm_num

/-- First counterexample slice: a long slice whose duration field (0)
does not describe its endTime (100). -/
def c5CexA : Slice :=
  { id := 0, trackId := 0, name := "a", category := "", startTime := 0, duration := 0,
    endTime := 100, args := [], depth := 0, color := 0 }

/-- Second counterexample slice. -/
def c5CexB : Slice :=
  { id := 1, trackId := 0, name := "b", category := "", startTime := 50, duration := 0,
    endTime := 60, args := [], depth := 0, color := 0 }

/-- The counterexample track: sorted by startTime, but with endTime
different from startTime + duration, where the claimed algorithm and
the source differ. -/
def c5CexSlices : List Slice := [c5CexA, c5CexB]

/-- C5 counterexample: on the window [40, 55], the source cull keeps
both slices (it scans from index 0), while the lower-bound/two-search
procedure the claim describes starts the scan at index 1 and drops the
overlapping first slice, so findVisibleSlices is not that procedure. -/
theorem spec_cull_counterexample :
    findVisibleSlices c5CexSlices 40 55 = [c5CexA, c5CexB] ∧
    specRangeCull c5CexSlices 40 55 = [c5CexB] ∧
    findVisibleSlices c5CexSlices 40 55 ≠ specRangeCull c5CexSlices 40 55 := by
  have hlen : (c5CexSlices.length : Int) = 2 := by simp [c5CexSlices]
  have st0 : startTimeAt c5CexSlices 0 = 0 := by
    norm_num [startTimeAt, c5CexSlices, c5CexA]
  have st1 : startTimeAt c5CexSlices 1 = 50 := by
    norm_num [startTimeAt, c5CexSlices, c5CexA, c5CexB]
  have e0 : findLastLoop c5CexSlices 55 0 ((c5CexSlices.length : Int) - 1)
      (c5CexSlices.length : Int) = 2 := by
    rw [hlen]
    rw [findLastLoop.eq_def]
    norm_num [st0]
    rw [findLastLoop.eq_def]
    norm_num [st1]
    rw [findLastLoop.eq_def]
    norm_num
  have h1 : findVisibleSlices c5CexSlices 40 55 = [c5CexA, c5CexB] := by
    unfold findVisibleSlices
    rw [if_neg (by simp [c5CexSlices])]
    simp only [e0]
    rw [show Int.toNat 2 = 2 by decide]
    norm_num [c5CexSlices, c5CexA, c5CexB]
  have em : trackMaxItemDuration c5CexSlices = 0 := by
    norm_num [trackMaxItemDuration, c5CexSlices, c5CexA, c5CexB]
  have e1 : findFirstSliceStartingAfter c5CexSlices 40 = 1 := by
    unfold findFirstSliceStartingAfter
    rw [hlen]
    rw [findFirstLoop.eq_def]
    norm_num [st0]
    rw [findFirstLoop.eq_def]
    norm_num [st1]
    rw [findFirstLoop.eq_def]
    norm_num
  have e2 : findLastLoop c5CexSlices 55 1 ((c5CexSlices.length : Int) - 1)
      (c5CexSlices.length : Int) = 2 := by
    rw [hlen]
    rw [findLastLoop.eq_def]
    norm_num [st1]
    rw [findLastLoop.eq_def]
    norm_num
  have h2 : specRangeCull c5CexSlices 40 55 = [c5CexB] := by
    unfold specRangeCull
    simp only [em, sub_zero, e1, e2]
    rw [show (2 : Int) - 1 = 1 by decide, show Int.toNat 1 = 1 by decide]
    norm_num [c5CexSlices, c5CexA, c5CexB]
  refine ⟨h1, h2, ?_⟩
  rw [h1, h2]
  simp [c5CexA, c5CexB]

/-! ## Timestamp normalisation and the minimum start time -/

/-- C6 (amended): after normalizeTimestamps, timeRange.start is 0, and
provided the dataset's pre-normalisation timeRange.start equals the
minimum slice startTime — which holds for parseJSON datasets, but can
fail for parseSystrace when an unmatched begin marker precedes every
completed slice — the minimum startTime over all slices is 0. -/
theorem normalize_start_zero (d : Dataset) (m : ℚ)
    (hstart : d.timeRange.start = some m)
    (hlb : ∀ t ∈ d.tracks, ∀ s ∈ t.slices, m ≤ s.startTime)
    (hex : ∃ t ∈ d.tracks, ∃ s ∈ t.slices, s.startTime = m) :
    (normalizeTimestamps d).timeRange.start = some 0 ∧
    (∀ t ∈ (normalizeTimestamps d).tracks, ∀ s ∈ t.slices, 0 ≤ s.startTime) ∧
    (∃ t ∈ (normalizeTimestamps d).tracks, ∃ s ∈ t.slices, s.startTime = 0) := by
  refine ⟨rfl, ?_, ?_⟩
  · intro t ht s hs
    simp only [normalizeTimestamps, List.mem_map] at ht
    obtain ⟨t0, ht0, rfl⟩ := ht
    simp only [List.mem_map] at hs
    obtain ⟨s0, hs0, rfl⟩ := hs
    have := hlb t0 ht0 s0 hs0
    simp only [shiftSlice, hstart, Option.getD_some]
    linarith
  · obtain ⟨t0, ht0, s0, hs0, he⟩ := hex
    refine ⟨{ t0 with slices := t0.slices.map (shiftSlice (d.timeRange.start.getD 0)) }, ?_,
      shiftSlice (d.timeRange.start.getD 0) s0, List.mem_map_of_mem _ hs0, ?_⟩
    · simp only [normalizeTimestamps, List.mem_map]
      exact ⟨t0, ht0, rfl⟩
    · simp [shiftSlice, hstart, he]

/-- Slice for the normalisation witness. -/
def c6Slice : Slice :=
  { id := 0, trackId := 0, name := "a", category := "", startTime := 7, duration := 2,
    endTime := 9, args := [], depth := 0, color := 0 }

/-- Track for the normalisation witness. -/
def c6Track : Track :=
  { id := 0, name := "t", pid := 0, tid := 0, processName := "p", slices := [c6Slice] }

/-- A dataset for the normalisation witness: one track, one slice
starting at the recorded timeRange.start of 7. -/
def c6Dataset : Dataset :=
  { tracks := [c6Track], timeRange := { start := some 7, endT := some 9 }, metadata := [] }

/-- Witness for the normalisation theorem at the concrete dataset. -/
theorem normalize_start_zero_witness :
    (normalizeTimestamps c6Dataset).timeRange.start = some 0 ∧
    (∀ t ∈ (normalizeTimestamps c6Dataset).tracks, ∀ s ∈ t.slices, 0 ≤ s.startTime) ∧
    (∃ t ∈ (normalizeTimestamps c6Dataset).tracks, ∃ s ∈ t.slices, s.startTime = 0) := by
  refine normalize_start_zero c6Dataset 7 (by simp [c6Dataset]) ?_ ?_
  · intro t ht s hs
    simp only [c6Dataset, List.mem_cons, List.not_mem_nil, or_false] at ht
    subst ht
    simp only [c6Track, List.mem_cons, List.not_mem_nil, or_false] at hs
    subst hs
    norm_num [c6Slice]
  · exact ⟨c6Track, by simp [c6Dataset], c6Slice, by simp [c6Track], by norm_num [c6Slice]⟩

/-- The systrace lines of the C6 counterexample: an unmatched begin at
0 seconds, then a begin at 1 second closed at 2 seconds, all on one
thread with marker pid 1. -/
def c6Lines : List SysLine :=
  [.evt "task" 1 0 0 "tracing_mark_write" (.beginMark 1 "X"),
   .evt "task" 1 0 1 "tracing_mark_write" (.beginMark 1 "Y"),
   .evt "task" 1 0 2 "tracing_mark_write" (.endMark 1)]

/-- The slice the counterexample trace produces before depth assignment
and normalisation. -/
def c6CexSlice : Slice :=
  { id := 0, trackId := 0, name := "Y", category := "systrace", startTime := 1000000,
    duration := 1000000, endTime := 2000000, args := [], depth := 0,
    color := getColorIndex "Y" }

/-- The track the counterexample trace produces. -/
def c6CexTrack : Track :=
  { id := 0, name := "task", pid := 1, tid := 1, processName := "task",
    slices := [c6CexSlice] }

/-- C6 counterexample: parseSystrace on a trace whose earliest event is
an unmatched begin produces a dataset with one slice whose startTime
after normalisation is 1000000, not 0: timeRange.start counts unmatched
begin markers, so the minimum slice startTime does not reach 0. -/
theorem normalize_min_counterexample :
    (parseSystrace c6Lines).timeRange.start = some 0 ∧
    (parseSystrace c6Lines).tracks.map (fun t => t.slices.map (·.startTime)) = [[1000000]] ∧
    ¬ (∃ t ∈ (parseSystrace c6Lines).tracks, ∃ s ∈ t.slices, s.startTime = 0) := by
  have hparse : parseSystrace c6Lines =
      normalizeTimestamps
        { tracks := calculateSliceDepths [c6CexTrack],
          timeRange := { start := some 0, endT := some 2000000 },
          metadata := [] } := by
    unfold parseSystrace
    norm_num [c6Lines, parseSystraceStep, pushOpen, pushSliceToSysTrack, minOpt, maxOpt,
      c6CexTrack, c6CexSlice]
  have hnf : nextFreeDepth [] 0 = 0 := by
    rw [nextFreeDepth.eq_def]
    norm_num
  have hsort : sortSlices [c6CexSlice] = [c6CexSlice] := by
    norm_num [sortSlices]
  have hassign : assignDepths [] [c6CexSlice] = [c6CexSlice] := by
    simp [assignDepths, hnf, c6CexSlice]
  have hcalc : calculateSliceDepths [c6CexTrack] =
      [{ c6CexTrack with slices := [c6CexSlice], maxDepth := 1 }] := by
    simp only [calculateSliceDepths, List.map_cons, List.map_nil]
    rw [calculateSliceDepthsTrack]
    rw [if_neg (by simp [c6CexTrack])]
    simp only [c6CexTrack, hsort, hassign]
    norm_num [c6CexSlice]
  rw [hparse, hcalc]
  norm_num [normalizeTimestamps, shiftSlice, c6CexTrack, c6CexSlice]

/-! ## Begin/end pairs: stack discipline -/

/-- The systrace form of the spec scenario: begin A at 0s, begin B at
10 microseconds, end at 20 microseconds, end at 30 microseconds (the
line timestamps are seconds, scaled by 1000000 during parsing). -/
def c3Lines : List SysLine :=
  [.evt "task" 1 0 0 "tracing_mark_write" (.beginMark 1 "A"),
   .evt "task" 1 0 (1/100000) "tracing_mark_write" (.beginMark 1 "B"),
   .evt "task" 1 0 (2/100000) "tracing_mark_write" (.endMark 1),
   .evt "task" 1 0 (3/100000) "tracing_mark_write" (.endMark 1)]

/-- The B slice the scenario produces (closed first, so id 0). -/
def c3SSliceB : Slice :=
  { id := 0, trackId := 0, name := "B", category := "systrace", startTime := 10,
    duration := 10, endTime := 20, args := [], depth := 0, color := getColorIndex "B" }

/-- The A slice the scenario produces (closed second, id 1). -/
def c3SSliceA : Slice :=
  { id := 1, trackId := 0, name := "A", category := "systrace", startTime := 0,
    duration := 30, endTime := 30, args := [], depth := 0, color := getColorIndex "A" }

/-- The scenario track before depth assignment (insertion order B, A). -/
def c3STrack : Track :=
  { id := 0, name := "task", pid := 1, tid := 1, processName := "task",
    slices := [c3SSliceB, c3SSliceA] }

/-- C3 (amended): the systrace parser follows per-track stack
discipline: the scenario B@0("A"), B@10("B"), E@20, E@30 yields exactly
the slices A:[0,30) at depth 0 and B:[10,20) at depth 1, and the track
has maxDepth 2. -/
theorem systrace_stack_discipline :
    (parseSystrace c3Lines).tracks.map (fun t =>
      (t.slices.map (fun s => (s.name, s.startTime, s.endTime, s.depth)), t.maxDepth))
      = [([("A", (0 : ℚ), (30 : ℚ), 0), ("B", (10 : ℚ), (20 : ℚ), 1)], 2)] := by
  have hparse : parseSystrace c3Lines =
      normalizeTimestamps
        { tracks := calculateSliceDepths [c3STrack],
          timeRange := { start := some 0, endT := some 30 },
          metadata := [] } := by
    unfold parseSystrace
    norm_num [c3Lines, parseSystraceStep, pushOpen, pushSliceToSysTrack, minOpt, maxOpt,
      c3STrack, c3SSliceA, c3SSliceB]
  have hnf0 : nextFreeDepth [] 0 = 0 := by
    rw [nextFreeDepth.eq_def]
    norm_num
  have hnf1 : nextFreeDepth [0] 0 = 1 := by
    rw [nextFreeDepth.eq_def]
    norm_num
    rw [nextFreeDepth.eq_def]
    norm_num
  have hsort : sortSlices [c3SSliceB, c3SSliceA] = [c3SSliceA, c3SSliceB] := by
    simp only [sortSlices, List.insertionSort, List.orderedInsert]
    rw [if_neg (by norm_num [sliceOrder, c3SSliceA, c3SSliceB])]
  have hassign : assignDepths [] [c3SSliceA, c3SSliceB] =
      [c3SSliceA, { c3SSliceB with depth := 1 }] := by
    simp only [assignDepths_cons]
    have h1 : stepActive [] c3SSliceA = [] := rfl
    have h2 : stepSlice [] c3SSliceA = c3SSliceA := by
      simp [stepSlice, stepActive, hnf0, c3SSliceA]
    rw [h1, h2]
    have h3 : stepActive [c3SSliceA] c3SSliceB = [c3SSliceA] := by
      simp [stepActive]
      norm_num [c3SSliceA, c3SSliceB]
    have h4 : stepSlice [c3SSliceA] c3SSliceB = { c3SSliceB with depth := 1 } := by
      simp only [stepSlice, h3, List.map_cons, List.map_nil]
      rw [show c3SSliceA.depth = 0 from rfl, hnf1]
    rw [List.nil_append, h3, h4]
    rfl
  have hcalc : calculateSliceDepths [c3STrack] =
      [{ c3STrack with slices := [c3SSliceA, { c3SSliceB with depth := 1 }], maxDepth := 2 }] := by
    simp only [calculateSliceDepths, List.map_cons, List.map_nil]
    rw [calculateSliceDepthsTrack]
    rw [if_neg (by simp [c3STrack])]
    have : c3STrack.slices = [c3SSliceB, c3SSliceA] := rfl
    rw [this, hsort, hassign]
    norm_num [c3SSliceA, c3SSliceB]
  rw [hparse, hcalc]
  norm_num [normalizeTimestamps, shiftSlice, c3STrack, c3SSliceA, c3SSliceB]

/-- The Chrome-JSON form of the spec scenario. -/
def c3Events : List TraceEvent :=
  [{ ph := "B", pid := some 1, tid := some 1, ts := some 0, dur := none, name := some "A",
     cat := none, tname := some "main", pname := some "proc", args := [] },
   { ph := "B", pid := some 1, tid := some 1, ts := some 10, dur := none, name := some "B",
     cat := none, tname := some "main", pname := some "proc", args := [] },
   { ph := "E", pid := some 1, tid := some 1, ts := some 20, dur := none, name := none,
     cat := none, tname := some "main", pname := some "proc", args := [] },
   { ph := "E", pid := some 1, tid := some 1, ts := some 30, dur := none, name := none,
     cat := none, tname := some "main", pname := some "proc", args := [] }]

/-- The A slice parseJSON actually produces: zero duration, endTime 0. -/
def c3JSliceA : Slice :=
  { id := 0, trackId := 0, name := "A", category := "", startTime := 0, duration := 0,
    endTime := 0, args := [], depth := 0, color := getColorIndex "A" }

/-- The B slice parseJSON actually produces: zero duration, endTime 10. -/
def c3JSliceB : Slice :=
  { id := 1, trackId := 0, name := "B", category := "", startTime := 10, duration := 0,
    endTime := 10, args := [], depth := 0, color := getColorIndex "B" }

/-- The track parseJSON builds for the scenario. -/
def c3JTrack : Track :=
  { id := 0, name := "main", pid := 1, tid := 1, processName := "proc",
    slices := [c3JSliceA, c3JSliceB] }

/-- C3 counterexample: parseJSON on the same scenario does not follow
stack discipline: the E events are ignored and each B event becomes a
zero-length slice at its own timestamp, so the result has endTimes 0 and
10, both depths 0 and maxDepth 1 — not the claimed A:[0,30) depth 0,
B:[10,20) depth 1 with maxDepth 2. -/
theorem json_end_events_ignored :
    (parseJSON c3Events).tracks.map (fun t =>
      (t.slices.map (fun s => (s.name, s.startTime, s.endTime, s.depth)), t.maxDepth))
      = [([("A", (0 : ℚ), (0 : ℚ), 0), ("B", (10 : ℚ), (10 : ℚ), 0)], 1)] ∧
    (parseJSON c3Events).tracks.map (fun t =>
      (t.slices.map (fun s => (s.name, s.startTime, s.endTime, s.depth)), t.maxDepth))
      ≠ [([("A", (0 : ℚ), (30 : ℚ), 0), ("B", (10 : ℚ), (20 : ℚ), 1)], 2)] := by
  have hparse : parseJSON c3Events =
      normalizeTimestamps
        { tracks := calculateSliceDepths [c3JTrack],
          timeRange := { start := some 0, endT := some 10 },
          metadata := [] } := by
    unfold parseJSON
    simp +decide [c3Events, parseJSONStep, pushSliceToTrack, setMeta, minOpt, maxOpt,
      c3JTrack, c3JSliceA, c3JSliceB]
  have hnf0 : nextFreeDepth [] 0 = 0 := by
    rw [nextFreeDepth.eq_def]
    norm_num
  have hsort : sortSlices [c3JSliceA, c3JSliceB] = [c3JSliceA, c3JSliceB] := by
    simp only [sortSlices, List.insertionSort, List.orderedInsert]
    rw [if_pos (by norm_num [sliceOrder, c3JSliceA, c3JSliceB])]
  have hassign : assignDepths [] [c3JSliceA, c3JSliceB] = [c3JSliceA, c3JSliceB] := by
    simp only [assignDepths_cons]
    have h1 : stepActive [] c3JSliceA = [] := rfl
    have h2 : stepSlice [] c3JSliceA = c3JSliceA := by
      simp [stepSlice, stepActive, hnf0, c3JSliceA]
    rw [h1, h2]
    have h3 : stepActive [c3JSliceA] c3JSliceB = [] := by
      simp [stepActive]
      norm_num [c3JSliceA, c3JSliceB]
    have h4 : stepSlice [c3JSliceA] c3JSliceB = c3JSliceB := by
      simp only [stepSlice, h3, List.map_nil]
      simp [hnf0, c3JSliceB]
    rw [List.nil_append, h3, h4]
    rfl
  have hcalc : calculateSliceDepths [c3JTrack] =
      [{ c3JTrack with slices := [c3JSliceA, c3JSliceB], maxDepth := 1 }] := by
    simp only [calculateSliceDepths, List.map_cons, List.map_nil]
    rw [calculateSliceDepthsTrack]
    rw [if_neg (by simp [c3JTrack])]
    have : c3JTrack.slices = [c3JSliceA, c3JSliceB] := rfl
    rw [this, hsort, hassign]
    norm_num [c3JSliceA, c3JSliceB]
  constructor
  · rw [hparse, hcalc]
    norm_num [normalizeTimestamps, shiftSlice, c3JTrack, c3JSliceA, c3JSliceB]
  · rw [hparse, hcalc]
    norm_num [normalizeTimestamps, shiftSlice, c3JTrack, c3JSliceA, c3JSliceB]

/-! ## Decode failure and the demo fallback -/

/-- C4 (amended): when the payload is not gzip, not JSON and not the
marker text format (sniffFormat returns protobuf), parseFile returns
the synthetic demonstration dataset as a successful parse — the
substitution happens inside the parser (parseProtobuf calls
createDemoTrace), and no decode-failure condition reaches the caller. -/
theorem undecodable_falls_back_to_demo (bytes : List Nat)
    (decompress : List Nat → List Nat)
    (decodeJson : List Nat → Option (List TraceEvent))
    (decodeLines : List Nat → List SysLine) (demoTrace : Dataset)
    (hp : sniffFormat bytes = .protobuf) :
    parseFile bytes decompress decodeJson decodeLines demoTrace = .ok demoTrace := by
  unfold parseFile
  rw [show (sniffFormat bytes == SniffedFormat.gzip) = false by rw [hp]; rfl]
  simp only [Bool.false_eq_true, if_false, hp]
  rfl

/-- The ASCII bytes of "hello", which no parser recognises. -/
def c4Bytes : List Nat := [104, 101, 108, 108, 111]

/-- A stand-in for the random demo dataset returned by createDemoTrace
(its metadata records demo provenance, src/llm-exporter.js:716). -/
def c4Demo : Dataset :=
  { tracks := [], timeRange := { start := some 0, endT := some 0 },
    metadata := [("demo", [])] }

/-- Witness: the fallback theorem applied to the bytes of "hello". -/
theorem undecodable_falls_back_witness :
    parseFile c4Bytes (fun bs => bs) (fun _ => none) (fun _ => []) c4Demo = .ok c4Demo :=
  undecodable_falls_back_to_demo c4Bytes (fun bs => bs) (fun _ => none) (fun _ => [])
    c4Demo (by decide)

/-- C4 counterexample: on the undecodable payload "hello" (sniffed as
protobuf), parseFile returns a dataset (Except.ok, the demo trace), not
an error: the parser substitutes the synthetic dataset itself instead
of surfacing a decode failure to the caller. -/
theorem parse_failure_counterexample :
    sniffFormat c4Bytes = .protobuf ∧
    parseFile c4Bytes (fun bs => bs) (fun _ => none) (fun _ => []) c4Demo = .ok c4Demo ∧
    (parseFile c4Bytes (fun bs => bs) (fun _ => none) (fun _ => []) c4Demo).isOk = true := by
  refine ⟨by decide, rfl, rfl⟩

/-! ## The point hit test -/

/-- What the backward scan of getSliceAtPosition can return: a slice of
the track that starts strictly before the queried time (the scan starts
below the insertion point), still runs at the queried time (inclusive
right end, as in the source check time <= slice.endTime), and whose
depth band contains the queried y. -/
def hitCand (slices : List Slice) (time y trackY pad h : ℚ) (s : Slice) : Prop :=
  s ∈ slices ∧ s.startTime < time ∧ time ≤ s.endTime ∧
    trackY + pad + (s.depth : ℚ) * h ≤ y ∧
    y < trackY + pad + (s.depth : ℚ) * h + h - 2

/-- Two depth bands of height sliceHeight - 2 spaced sliceHeight apart
cannot both contain y: the lane matched by y determines the depth. -/
lemma band_unique {h y trackY pad : ℚ} (hh : 0 ≤ h) {d1 d2 : Nat}
    (h1 : trackY + pad + (d1 : ℚ) * h ≤ y ∧ y < trackY + pad + (d1 : ℚ) * h + h - 2)
    (h2 : trackY + pad + (d2 : ℚ) * h ≤ y ∧ y < trackY + pad + (d2 : ℚ) * h + h - 2) :
    d1 = d2 := by
  by_contra hne
  rcases Nat.lt_or_ge d1 d2 with hlt | hge
  · have hc : ((d1 : ℚ) + 1) ≤ (d2 : ℚ) := by exact_mod_cast hlt
    have := mul_le_mul_of_nonneg_right hc hh
    have h3 := h1.2
    have h4 := h2.1
    nlinarith
  · have hlt : d2 < d1 := lt_of_le_of_ne hge (fun he => hne he.symm)
    have hc : ((d2 : ℚ) + 1) ≤ (d1 : ℚ) := by exact_mod_cast hlt
    have := mul_le_mul_of_nonneg_right hc hh
    have h3 := h2.2
    have h4 := h1.1
    nlinarith

/-- Reading the scanned element through getD. -/
lemma getD_eq_getElem (slices : List Slice) (n : Nat) (hn : n < slices.length) :
    slices.getD n default = slices[n] := by
  simp [List.getD, List.getElem?_eq_getElem hn]

/-- Soundness of the backward scan: anything it returns is either the
incoming candidate or a slice of the scanned prefix that contains the
queried time and matches the lane. -/
lemma hitScan_sound (slices : List Slice) (time y trackY pad h : ℚ) :
    ∀ (n : Nat) (found : Option Slice) (maxD : Int),
      n ≤ slices.length →
      (∀ i, i < n → ∀ hi : i < slices.length, (slices[i]).startTime < time) →
      ∀ s, hitScan slices time y trackY pad h n found maxD = some s →
        found = some s ∨ hitCand slices time y trackY pad h s := by
  intro n
  induction n with
  | zero =>
    intro found maxD _ _ s hs
    exact Or.inl hs
  | succ n ih =>
    intro found maxD hlen hstrict s hs
    have hn : n < slices.length := by omega
    rw [hitScan] at hs
    rw [getD_eq_getElem slices n hn] at hs
    by_cases hc1 : (slices[n]).endTime < time
    · rw [if_pos hc1] at hs
      by_cases hc2 : found.isSome ∧
          time - (slices[n]).startTime > 10 * ((slices[n]).endTime - (slices[n]).startTime)
      · rw [if_pos hc2] at hs
        exact Or.inl hs
      · rw [if_neg hc2] at hs
        exact ih found maxD (by omega) (fun i hi hi2 => hstrict i (by omega) hi2) s hs
    · rw [if_neg hc1] at hs
      by_cases hc3 : time ≥ (slices[n]).startTime ∧ time ≤ (slices[n]).endTime
      · rw [if_pos hc3] at hs
        by_cases hc4 : y ≥ trackY + pad + ((slices[n]).depth : ℚ) * h ∧
            y < trackY + pad + ((slices[n]).depth : ℚ) * h + h - 2
        · rw [if_pos hc4] at hs
          by_cases hc5 : ((slices[n]).depth : Int) > maxD
          · rw [if_pos hc5] at hs
            rcases ih _ _ (by omega) (fun i hi hi2 => hstrict i (by omega) hi2) s hs with
              he | hcand
            · right
              have hse : slices[n] = s := by injection he
              subst hse
              exact ⟨List.getElem_mem hn, hstrict n (by omega) hn, hc3.2, hc4.1, hc4.2⟩
            · exact Or.inr hcand
          · rw [if_neg hc5] at hs
            exact ih found maxD (by omega) (fun i hi hi2 => hstrict i (by omega) hi2) s hs
        · rw [if_neg hc4] at hs
          exact ih found maxD (by omega) (fun i hi hi2 => hstrict i (by omega) hi2) s hs
      · rw [if_neg hc3] at hs
        exact ih found maxD (by omega) (fun i hi hi2 => hstrict i (by omega) hi2) s hs

/-- Once the scan holds a candidate and no scanned index below carries
another candidate, the result is that candidate: the early-exit break
returns it, and no later probe replaces it. -/
lemma hitScan_keeps (slices : List Slice) (time y trackY pad h : ℚ) :
    ∀ (n : Nat) (c : Slice) (maxD : Int),
      n ≤ slices.length →
      (∀ i, i < n → ∀ hi : i < slices.length, (slices[i]).startTime < time) →
      (∀ i, i < n → ∀ hi : i < slices.length,
        ¬ hitCand slices time y trackY pad h (slices[i])) →
      hitScan slices time y trackY pad h n (some c) maxD = some c := by
  intro n
  induction n with
  | zero => intro c maxD _ _ _; rfl
  | succ n ih =>
    intro c maxD hlen hstrict hnone
    have hn : n < slices.length := by omega
    rw [hitScan, getD_eq_getElem slices n hn]
    by_cases hc1 : (slices[n]).endTime < time
    · rw [if_pos hc1]
      by_cases hc2 : (some c).isSome ∧
          time - (slices[n]).startTime > 10 * ((slices[n]).endTime - (slices[n]).startTime)
      · rw [if_pos hc2]
      · rw [if_neg hc2]
        exact ih c maxD (by omega) (fun i hi hi2 => hstrict i (by omega) hi2)
          (fun i hi hi2 => hnone i (by omega) hi2)
    · rw [if_neg hc1]
      by_cases hc3 : time ≥ (slices[n]).startTime ∧ time ≤ (slices[n]).endTime
      · rw [if_pos hc3]
        by_cases hc4 : y ≥ trackY + pad + ((slices[n]).depth : ℚ) * h ∧
            y < trackY + pad + ((slices[n]).depth : ℚ) * h + h - 2
        · exfalso
          exact hnone n (by omega) hn
            ⟨List.getElem_mem hn, hstrict n (by omega) hn, hc3.2, hc4.1, hc4.2⟩
        · rw [if_neg hc4]
          exact ih c maxD (by omega) (fun i hi hi2 => hstrict i (by omega) hi2)
            (fun i hi hi2 => hnone i (by omega) hi2)
      · rw [if_neg hc3]
        exact ih c maxD (by omega) (fun i hi hi2 => hstrict i (by omega) hi2)
          (fun i hi hi2 => hnone i (by omega) hi2)

/-- Completeness of the backward scan: starting with no candidate and a
negative depth bound, if index j below the scan start carries the only
candidate among the scanned indices, the scan returns it. -/
lemma hitScan_finds (slices : List Slice) (time y trackY pad h : ℚ) :
    ∀ (n j : Nat) (maxD : Int),
      n ≤ slices.length →
      (∀ i, i < n → ∀ hi : i < slices.length, (slices[i]).startTime < time) →
      j < n →
      maxD < 0 →
      ∀ hj : j < slices.length,
      hitCand slices time y trackY pad h (slices[j]) →
      (∀ i, i < n → ∀ hi : i < slices.length, i ≠ j →
        ¬ hitCand slices time y trackY pad h (slices[i])) →
      hitScan slices time y trackY pad h n none maxD = some (slices[j]) := by
  intro n
  induction n with
  | zero => intro j maxD _ _ hjn; omega
  | succ n ih =>
    intro j maxD hlen hstrict hjn hmd hj hcand hnone
    have hn : n < slices.length := by omega
    rw [hitScan, getD_eq_getElem slices n hn]
    by_cases hje : n = j
    · subst hje
      rw [if_neg (not_lt.mpr hcand.2.2.1)]
      rw [if_pos ⟨le_of_lt (hstrict n (by omega) hn), hcand.2.2.1⟩]
      rw [if_pos ⟨hcand.2.2.2.1, hcand.2.2.2.2⟩]
      rw [if_pos (lt_of_lt_of_le hmd (Int.natCast_nonneg _))]
      exact hitScan_keeps slices time y trackY pad h n (slices[n]) _ (by omega)
        (fun i hi hi2 => hstrict i (by omega) hi2)
        (fun i hi hi2 => hnone i (by omega) hi2 (by omega))
    · have hjn' : j < n := by omega
      have hnotc : ¬ hitCand slices time y trackY pad h (slices[n]) :=
        hnone n (by omega) hn hje
      by_cases hc1 : (slices[n]).endTime < time
      · rw [if_pos hc1]
        rw [if_neg (by simp)]
        exact ih j maxD (by omega) (fun i hi hi2 => hstrict i (by omega) hi2) hjn' hmd hj
          hcand (fun i hi hi2 hij => hnone i (by omega) hi2 hij)
      · rw [if_neg hc1]
        by_cases hc3 : time ≥ (slices[n]).startTime ∧ time ≤ (slices[n]).endTime
        · rw [if_pos hc3]
          by_cases hc4 : y ≥ trackY + pad + ((slices[n]).depth : ℚ) * h ∧
              y < trackY + pad + ((slices[n]).depth : ℚ) * h + h - 2
          · exact absurd ⟨List.getElem_mem hn, hstrict n (by omega) hn, hc3.2, hc4.1, hc4.2⟩
              hnotc
          · rw [if_neg hc4]
            exact ih j maxD (by omega) (fun i hi hi2 => hstrict i (by omega) hi2) hjn' hmd hj
              hcand (fun i hi hi2 hij => hnone i (by omega) hi2 hij)
        · rw [if_neg hc3]
          exact ih j maxD (by omega) (fun i hi hi2 => hstrict i (by omega) hi2) hjn' hmd hj
            hcand (fun i hi hi2 hij => hnone i (by omega) hi2 hij)

/-- C8 (amended): on a viewer showing one track whose slices satisfy
the pipeline invariants (start-sorted, no overlap at equal depth), with
y inside the track row, getSliceAtPosition returns some s exactly when
s is the slice with s.startTime < time <= s.endTime whose depth band
contains y (such a slice is unique; all lane-matching candidates share
one depth, so it is in particular the topmost match), and returns none
when no such slice exists.  Slices with startTime equal to the queried
time are never candidates: the scan starts below the insertion point. -/
theorem hit_test_characterization (v : Viewer) (t : Track) (x y : ℚ)
    (hv : v.tracks = [t])
    (hhid : t.id ∉ v.hiddenTracks)
    (hrow : 0 ≤ y ∧ y < trackHeightOf v t)
    (hh : 0 ≤ v.sliceHeight)
    (hsorted : t.slices.Pairwise startLE)
    (hsep : t.slices.Pairwise (fun a b => a.depth = b.depth →
      ¬(a.startTime < b.endTime ∧ b.startTime < a.endTime))) :
    ∀ s : Slice, getSliceAtPosition v x y = some s ↔
      hitCand t.slices (xToTime v x) y 0 v.trackPadding v.sliceHeight s := by
  intro s
  obtain ⟨hi0, hilen, hz1, hz2⟩ :=
    findFirstSliceStartingAfter_spec t.slices (xToTime v x) hsorted
  set time := xToTime v x with htime
  set idx := findFirstSliceStartingAfter t.slices time with hidx
  have hres : getSliceAtPosition v x y =
      hitScan t.slices time y 0 v.trackPadding v.sliceHeight idx.toNat none (-1) := by
    unfold getSliceAtPosition
    rw [hv]
    simp only [gspGo]
    rw [if_neg (by simpa using hhid)]
    rw [if_pos ⟨hrow.1, by rw [zero_add]; exact hrow.2⟩]
  have hstrict : ∀ i, i < idx.toNat → ∀ hi : i < t.slices.length,
      (t.slices[i]).startTime < time := by
    intro i hi hi2
    have := hz1 i (by omega) hi2
    rwa [startTimeAt_eq t.slices i hi2] at this
  constructor
  · intro hsome
    rw [hres] at hsome
    rcases hitScan_sound t.slices time y 0 v.trackPadding v.sliceHeight idx.toNat none (-1)
        (by omega) hstrict s hsome with he | hcand
    · exact absurd he (by simp)
    · exact hcand
  · intro hcand
    obtain ⟨j, hj, hjs⟩ := List.mem_iff_getElem.mp hcand.1
    have hjidx : j < idx.toNat := by
      by_contra hge
      have hge2 : idx ≤ (j : Int) := by omega
      have := hz2 j hge2 hj
      rw [startTimeAt_eq t.slices j hj, hjs] at this
      exact absurd hcand.2.1 (not_lt.mpr this)
    have hcj : hitCand t.slices time y 0 v.trackPadding v.sliceHeight (t.slices[j]) := by
      rw [hjs]
      exact hcand
    have hno : ∀ i, i < idx.toNat → ∀ hi : i < t.slices.length, i ≠ j →
        ¬ hitCand t.slices time y 0 v.trackPadding v.sliceHeight (t.slices[i]) := by
      intro i hi hi2 hij hci
      have hdep : (t.slices[i]).depth = (t.slices[j]).depth :=
        band_unique hh ⟨hci.2.2.2.1, hci.2.2.2.2⟩ ⟨hcj.2.2.2.1, hcj.2.2.2.2⟩
      have hover : (t.slices[i]).startTime < (t.slices[j]).endTime ∧
          (t.slices[j]).startTime < (t.slices[i]).endTime :=
        ⟨lt_of_lt_of_le hci.2.1 hcj.2.2.1, lt_of_lt_of_le hcj.2.1 hci.2.2.1⟩
      rcases Nat.lt_or_ge i j with hlt | hge
      · exact (List.pairwise_iff_getElem.mp hsep i j hi2 hj hlt) hdep hover
      · have hlt : j < i := by omega
        exact (List.pairwise_iff_getElem.mp hsep j i hj hi2 hlt) hdep.symm
          ⟨hover.2, hover.1⟩
    rw [hres]
    rw [hitScan_finds t.slices time y 0 v.trackPadding v.sliceHeight idx.toNat j (-1)
      (by omega) hstrict hjidx (by omega) hj hcj hno]
    rw [hjs]

/-- Slice for the hit-test witness: [5, 20) at depth 0. -/
def c8WSlice : Slice :=
  { id := 0, trackId := 0, name := "w", category := "", startTime := 5, duration := 15,
    endTime := 20, args := [], depth := 0, color := 0 }

/-- Track for the hit-test witness. -/
def c8WTrack : Track :=
  { id := 0, name := "t", pid := 0, tid := 0, processName := "p", slices := [c8WSlice],
    maxDepth := 1 }

/-- Viewer for the hit-test witness: window [0, 100] over a 100-pixel
canvas, so x maps to time x. -/
def c8WViewer : Viewer :=
  { tracks := [c8WTrack], slices := [c8WSlice], selectedSlices := [], hiddenTracks := [],
    viewStart := 0, viewEnd := 100, width := 100 }

/-- Witness: at x = 10 (time 10), y = 10 (inside depth band 0), the hit
test returns the slice [5, 20). -/
theorem hit_test_characterization_witness :
    getSliceAtPosition c8WViewer 10 10 = some c8WSlice := by
  refine (hit_test_characterization c8WViewer c8WTrack 10 10 rfl (by simp [c8WViewer]) ?_
    (by norm_num [c8WViewer]) (by simp [c8WTrack]) (by simp [c8WTrack]) c8WSlice).mpr ?_
  · constructor
    · norm_num
    · norm_num [trackHeightOf, c8WViewer, c8WTrack]
  · refine ⟨by simp [c8WTrack], ?_, ?_, ?_, ?_⟩ <;>
      norm_num [xToTime, c8WViewer, c8WSlice]

/-- Slice for the hit-test counterexample: [10, 20) at depth 0. -/
def c8CSlice : Slice :=
  { id := 0, trackId := 0, name := "c", category := "", startTime := 10, duration := 10,
    endTime := 20, args := [], depth := 0, color := 0 }

/-- Track for the hit-test counterexample. -/
def c8CTrack : Track :=
  { id := 0, name := "t", pid := 0, tid := 0, processName := "p", slices := [c8CSlice],
    maxDepth := 1 }

/-- Viewer for the hit-test counterexample. -/
def c8CViewer : Viewer :=
  { tracks := [c8CTrack], slices := [c8CSlice], selectedSlices := [], hiddenTracks := [],
    viewStart := 0, viewEnd := 100, width := 100 }

/-- C8 counterexample: at x = 10 the queried time is exactly the start
of the slice [10, 20); the slice contains that time (inclusively at
both ends), the lane matches (y = 10 lies in depth band 0) and y is
inside the track row, yet getSliceAtPosition returns none: the binary
search puts the insertion point at index 0 and the backward scan never
examines slices starting exactly at the queried time. -/
theorem hit_test_counterexample :
    getSliceAtPosition c8CViewer 10 10 = none ∧
    c8CSlice.startTime ≤ xToTime c8CViewer 10 ∧
    xToTime c8CViewer 10 ≤ c8CSlice.endTime ∧
    0 + c8CViewer.trackPadding + (c8CSlice.depth : ℚ) * c8CViewer.sliceHeight ≤ 10 ∧
    10 < 0 + c8CViewer.trackPadding + (c8CSlice.depth : ℚ) * c8CViewer.sliceHeight +
      c8CViewer.sliceHeight - 2 ∧
    0 ≤ (10 : ℚ) ∧ (10 : ℚ) < trackHeightOf c8CViewer c8CTrack := by
  have hx : xToTime c8CViewer 10 = 10 := by norm_num [xToTime, c8CViewer]
  have e1 : findFirstSliceStartingAfter c8CTrack.slices 10 = 0 := by
    unfold findFirstSliceStartingAfter
    rw [show ((c8CTrack.slices.length : Int)) = 1 by simp [c8CTrack]]
    rw [findFirstLoop.eq_def]
    norm_num [startTimeAt, c8CTrack, c8CSlice]
    rw [findFirstLoop.eq_def]
    norm_num
  refine ⟨?_, ?_, ?_, ?_, ?_, ?_, ?_⟩
  · unfold getSliceAtPosition
    rw [show c8CViewer.tracks = [c8CTrack] from rfl]
    simp only [gspGo]
    rw [if_neg (by simp [c8CViewer, c8CTrack])]
    rw [if_pos ⟨by norm_num, by norm_num [trackHeightOf, c8CViewer, c8CTrack]⟩]
    rw [hx, e1]
    rfl
  · norm_num [xToTime, c8CViewer, c8CSlice]
  · norm_num [xToTime, c8CViewer, c8CSlice]
  · norm_num [c8CViewer, c8CSlice]
  · norm_num [c8CViewer, c8CSlice]
  · norm_num
  · norm_num [trackHeightOf, c8CViewer, c8CTrack]
